import Mathlib

/-!
Verification development for the invoice-extractor pipeline
(src_propre/bedrock_client.py, src_propre/main.py, src_propre/dynamodb_client.py).

The Python code is shallowly embedded: Python dictionaries become ordered
association structures (PO), Python values become the inductive PV, regular
expression searches used by the code are embedded as dedicated matching
functions that follow the backtracking semantics of the concrete patterns in
the source, and json.loads / json.dumps are embedded as an executable JSON
reader and writer over PV.

Modelling conventions:
- Python float values are modelled as normalized scaled decimals
  (mantissa and fractional-digit count), which agrees with CPython printing
  and parsing for the decimal-literal magnitudes this program handles;
  binary floating point itself is not modelled.
- str.lower / str.upper are modelled on ASCII letters; every constant the
  source compares case-insensitively is ASCII.
- External I/O (S3, Bedrock, DynamoDB network calls) is passed in as
  explicit outcome parameters.
-/

/-- ASCII whitespace as matched by Python str.strip and the regex class \s. -/
def pyIsSpace (c : Char) : Bool :=
  c = ' ' || c = '\t' || c = '\n' || c = '\r' || c = '\x0b' || c = '\x0c'

/-- Whitespace accepted between JSON tokens by json.loads. -/
def jsonIsWs (c : Char) : Bool :=
  c = ' ' || c = '\t' || c = '\n' || c = '\r'

/-- Decimal digit test. -/
def isDigitCh (c : Char) : Bool :=
  '0' ≤ c && c ≤ '9'

/-- ASCII lower-casing of one character (model of str.lower). -/
def lowerCh (c : Char) : Char :=
  if 'A' ≤ c && c ≤ 'Z' then Char.ofNat (c.toNat + 32) else c

/-- ASCII upper-casing of one character (model of str.upper). -/
def upperCh (c : Char) : Char :=
  if 'a' ≤ c && c ≤ 'z' then Char.ofNat (c.toNat - 32) else c

/-- Model of str.lower. -/
def pyLower (s : String) : String :=
  ⟨s.data.map lowerCh⟩

/-- Model of str.upper. -/
def pyUpper (s : String) : String :=
  ⟨s.data.map upperCh⟩

/-- Strip leading and trailing whitespace from a character list. -/
def stripChars (l : List Char) : List Char :=
  ((l.dropWhile pyIsSpace).reverse.dropWhile pyIsSpace).reverse

/-- Model of str.strip with no arguments. -/
def pyStrip (s : String) : String :=
  ⟨stripChars s.data⟩

/-- If the second list starts with the first one, return the rest. -/
def dropPrefixQ : List Char → List Char → Option (List Char)
  | [], s => some s
  | _ :: _, [] => none
  | p :: ps, c :: cs => if c = p then dropPrefixQ ps cs else none

/-- Case-insensitive variant of dropPrefixQ (for IGNORECASE patterns). -/
def dropPrefixCI : List Char → List Char → Option (List Char)
  | [], s => some s
  | _ :: _, [] => none
  | p :: ps, c :: cs => if lowerCh c = lowerCh p then dropPrefixCI ps cs else none

/-- Does the second list start with the first one. -/
def startsWithCh (p s : List Char) : Bool :=
  (dropPrefixQ p s).isSome

/-- Substring occurrence test on character lists (model of the in operator). -/
def containsSub (needle : List Char) : List Char → Bool
  | [] => startsWithCh needle []
  | c :: cs => startsWithCh needle (c :: cs) || containsSub needle cs

/-- Substring occurrence test on strings. -/
def strContains (hay needle : String) : Bool :=
  containsSub needle.data hay.data

/-- Decimal digits of a natural number, most significant first (fuelled). -/
def natDigits (fuel : Nat) (n : Nat) : List Char :=
  match fuel with
  | 0 => []
  | f + 1 =>
    if n < 10 then [Char.ofNat (48 + n)]
    else natDigits f (n / 10) ++ [Char.ofNat (48 + n % 10)]

/-- Model of str applied to a nonnegative integer. -/
def pyStrNat (n : Nat) : String :=
  ⟨natDigits (n + 1) n⟩

/-- Model of str applied to a Python int. -/
def pyStrInt (i : Int) : String :=
  if i < 0 then "-" ++ pyStrNat i.natAbs else pyStrNat i.natAbs

/-- Normalize a scaled decimal by removing trailing fractional zeros.
CPython float printing never shows trailing fractional zeros, so normalized
scaled decimals model observable float values. -/
def normDec (m : Int) : Nat → Int × Nat
  | 0 => (m, 0)
  | s + 1 => if m % 10 = 0 then normDec (m / 10) s else (m, s + 1)

/-- Printing of a modelled float value (model of str and repr on floats,
for decimals in the plain positional range). Always shows a decimal point. -/
def decStr (m : Int) (s : Nat) : String :=
  if s = 0 then pyStrInt m ++ ".0"
  else
    let ds := natDigits (m.natAbs + 1) m.natAbs
    let padded := List.replicate (s + 1 - ds.length) '0' ++ ds
    let ip := padded.take (padded.length - s)
    let fp := padded.drop (padded.length - s)
    (if m < 0 then "-" else "") ++ ⟨ip⟩ ++ "." ++ ⟨fp⟩

/-- Numeric value of a digit list. -/
def digitsToNat (ds : List Char) : Nat :=
  ds.foldl (fun a c => a * 10 + (c.toNat - 48)) 0

/-- Model of int applied to a string: optional sign, one or more digits,
surrounding whitespace allowed; anything else raises (None here). -/
def pyParseInt (s : String) : Option Int :=
  let l := stripChars s.data
  let core : List Char → Option Int := fun l =>
    let ds := l.takeWhile isDigitCh
    if ds ≠ [] && l.dropWhile isDigitCh = [] then some (digitsToNat ds) else none
  match l with
  | '-' :: rest => (core rest).map (fun n => -n)
  | '+' :: rest => core rest
  | _ => core l

/-- Parse digits [ dot digits ] into an unnormalized scaled decimal. -/
def parseDecCore (l : List Char) : Option (Nat × Nat × List Char) :=
  let ip := l.takeWhile isDigitCh
  let r1 := l.dropWhile isDigitCh
  match r1 with
  | '.' :: r2 =>
    let fp := r2.takeWhile isDigitCh
    let r3 := r2.dropWhile isDigitCh
    if ip = [] && fp = [] then none
    else some (digitsToNat ip * 10 ^ fp.length + digitsToNat fp, fp.length, r3)
  | _ => if ip = [] then none else some (digitsToNat ip, 0, r1)

/-- Model of float applied to a string: optional sign, decimal digits with an
optional fractional part and optional exponent, surrounding whitespace
allowed. Returns the normalized scaled decimal. (inf and nan not modelled.) -/
def pyParseFloat (s : String) : Option (Int × Nat) :=
  let l := stripChars s.data
  let signed : List Char → Option (Bool × List Char) := fun l =>
    match l with
    | '-' :: rest => some (true, rest)
    | '+' :: rest => some (false, rest)
    | _ => some (false, l)
  match signed l with
  | some (neg, l1) =>
    match parseDecCore l1 with
    | none => none
    | some (mant, shift, rest) =>
      let applyExp : Int → Option (Nat × Nat) := fun e =>
        if 0 ≤ e then
          let en := e.toNat
          if en ≤ shift then some (mant, shift - en)
          else some (mant * 10 ^ (en - shift), 0)
        else some (mant, shift + (-e).toNat)
      let finish : Nat × Nat → Option (Int × Nat) := fun p =>
        let m : Int := if neg then -(p.1 : Int) else (p.1 : Int)
        some (normDec m p.2)
      match rest with
      | [] => finish (mant, shift)
      | e :: rest2 =>
        if e = 'e' || e = 'E' then
          let esigned :=
            match rest2 with
            | '-' :: r => some (true, r)
            | '+' :: r => some (false, r)
            | _ => some (false, rest2)
          match esigned with
          | some (eneg, r) =>
            let eds := r.takeWhile isDigitCh
            if eds ≠ [] && r.dropWhile isDigitCh = [] then
              let ev : Int := if eneg then -(digitsToNat eds : Int) else (digitsToNat eds : Int)
              match applyExp ev with
              | some p => finish p
              | none => none
            else none
          | none => none
        else none
  | none => none

mutual
/-- Python values as this program observes them: None, bool, int, float
(as a normalized scaled decimal), str, list and dict. -/
inductive PV where
  | none
  | bool (b : Bool)
  | int (n : Int)
  | float (m : Int) (s : Nat)
  | str (s : String)
  | list (l : PA)
  | dict (m : PO)
  deriving DecidableEq
/-- A Python list of PV values. -/
inductive PA where
  | nil
  | cons (v : PV) (tl : PA)
  deriving DecidableEq
/-- A Python dict with string keys, as an insertion-ordered association
structure. -/
inductive PO where
  | nil
  | cons (k : String) (v : PV) (tl : PO)
  deriving DecidableEq
end

/-- Induction on PO alone (the derived recursor is for the mutual family). -/
def PO.ind {motive : PO → Prop} (hnil : motive .nil)
    (hcons : ∀ k v tl, motive tl → motive (.cons k v tl)) : ∀ m, motive m
  | .nil => hnil
  | .cons k v tl => hcons k v tl (PO.ind hnil hcons tl)

/-- Keys of a dict in order. -/
def poKeys : PO → List String
  | .nil => []
  | .cons k _ tl => k :: poKeys tl

/-- First-occurrence lookup (Python dict lookup; builders below keep keys
unique the way Python dicts do). -/
def poLookup : PO → String → Option PV
  | .nil, _ => none
  | .cons k v tl, key => if k = key then some v else poLookup tl key

/-- Model of the in operator on a dict. -/
def poMem (m : PO) (key : String) : Bool :=
  (poLookup m key).isSome

/-- Model of dict.get with a default. -/
def poGetD (m : PO) (key : String) (dflt : PV) : PV :=
  (poLookup m key).getD dflt

/-- Model of dict assignment: replace in place if the key exists, else
append at the end (Python insertion-order semantics). -/
def poSet : PO → String → PV → PO
  | .nil, key, v => .cons key v .nil
  | .cons k w tl, key, v =>
    if k = key then .cons k v tl else .cons k w (poSet tl key v)

/-- Concatenation of two association structures. -/
def poAppend : PO → PO → PO
  | .nil, b => b
  | .cons k v tl, b => .cons k v (poAppend tl b)

/-- Filter of an association structure by a key/value predicate. -/
def poFilter (p : String → PV → Bool) : PO → PO
  | .nil => .nil
  | .cons k v tl => if p k v then .cons k v (poFilter p tl) else poFilter p tl

/-- Do all entries satisfy the predicate. -/
def poAll (p : String → PV → Bool) : PO → Bool
  | .nil => true
  | .cons k v tl => p k v && poAll p tl

/-- Append one element at the end of a PA. -/
def paSnoc : PA → PV → PA
  | .nil, v => .cons v .nil
  | .cons w tl, v => .cons w (paSnoc tl v)

/-- All list elements satisfy the predicate. -/
def paAll (p : PV → Bool) : PA → Bool
  | .nil => true
  | .cons v tl => p v && paAll p tl

/-- List of the elements of a PA. -/
def paList : PA → List PV
  | .nil => []
  | .cons v tl => v :: paList tl

/-- Python truthiness of a value. -/
def pyTruthy : PV → Bool
  | .none => false
  | .bool b => b
  | .int n => n ≠ 0
  | .float m _ => m ≠ 0
  | .str s => s ≠ ""
  | .list l => l ≠ .nil
  | .dict m => m ≠ .nil

/-- Is the value None. -/
def isNoneV : PV → Bool
  | .none => true
  | _ => false

/-- Is the value a Python str. -/
def isStrV : PV → Bool
  | .str _ => true
  | _ => false

/-- Is the value accepted by isinstance(v, (int, float)); in Python a bool
is an instance of int, so bools count as numbers here. -/
def isNumLike : PV → Bool
  | .int _ => true
  | .float _ _ => true
  | .bool _ => true
  | _ => false

/-- Hex digit for the low nibble. -/
def hexCh (n : Nat) : Char :=
  if n < 10 then Char.ofNat (48 + n) else Char.ofNat (87 + n)

/-- Read one JSON string body (after the opening quote): plain characters
and the standard escapes; unescaped control characters are rejected as
json.loads does in strict mode. Returns the decoded characters and the rest
after the closing quote. -/
def jStringRest : Nat → List Char → Option (List Char × List Char)
  | 0, _ => none
  | _ + 1, [] => none
  | f + 1, c :: cs =>
    if c = '"' then some ([], cs)
    else if c = '\\' then
      match cs with
      | [] => none
      | e :: cs2 =>
        let simple : Option Char :=
          if e = '"' then some '"'
          else if e = '\\' then some '\\'
          else if e = '/' then some '/'
          else if e = 'b' then some '\x08'
          else if e = 'f' then some '\x0c'
          else if e = 'n' then some '\n'
          else if e = 'r' then some '\r'
          else if e = 't' then some '\t'
          else none
        match simple with
        | some d => (jStringRest f cs2).map (fun p => (d :: p.1, p.2))
        | none =>
          if e = 'u' then
            match cs2 with
            | h1 :: h2 :: h3 :: h4 :: cs3 =>
              let hv : Char → Option Nat := fun h =>
                if isDigitCh h then some (h.toNat - 48)
                else if 'a' ≤ h && h ≤ 'f' then some (h.toNat - 87)
                else if 'A' ≤ h && h ≤ 'F' then some (h.toNat - 55)
                else none
              match hv h1, hv h2, hv h3, hv h4 with
              | some a, some b, some c1, some d1 =>
                let n := ((a * 16 + b) * 16 + c1) * 16 + d1
                (jStringRest f cs3).map (fun p => (Char.ofNat n :: p.1, p.2))
              | _, _, _, _ => none
            | _ => none
          else none
    else if c.toNat < 32 then none
    else (jStringRest f cs).map (fun p => (c :: p.1, p.2))

/-- Read one JSON number: optional minus, integer part without leading
zeros, optional fraction, optional exponent. Plain integers become Python
ints; a fraction or exponent makes the value a float. -/
def jNumber (l : List Char) : Option (PV × List Char) :=
  let signed : Bool × List Char :=
    match l with
    | '-' :: rest => (true, rest)
    | _ => (false, l)
  let neg := signed.1
  let l1 := signed.2
  let ip := l1.takeWhile isDigitCh
  let r1 := l1.dropWhile isDigitCh
  if ip = [] then none
  else if ip.length > 1 && ip.headD '0' = '0' then none
  else
    let mkInt : Int := if neg then -(digitsToNat ip : Int) else (digitsToNat ip : Int)
    let fracPart : Option (Nat × Nat × List Char) :=
      match r1 with
      | '.' :: r2 =>
        let fp := r2.takeWhile isDigitCh
        if fp = [] then none
        else some (digitsToNat ip * 10 ^ fp.length + digitsToNat fp, fp.length, r2.dropWhile isDigitCh)
      | _ => some (digitsToNat ip, 0, r1)
    match fracPart with
    | none => none
    | some (mant, shift, r3) =>
      let isFloat1 := shift ≠ 0
      let expPart : Option (Int × List Char × Bool) :=
        match r3 with
        | e :: r4 =>
          if e = 'e' || e = 'E' then
            let esigned : Bool × List Char :=
              match r4 with
              | '-' :: r5 => (true, r5)
              | '+' :: r5 => (false, r5)
              | _ => (false, r4)
            let eds := esigned.2.takeWhile isDigitCh
            if eds = [] then none
            else
              let ev : Int := if esigned.1 then -(digitsToNat eds : Int) else (digitsToNat eds : Int)
              some (ev, esigned.2.dropWhile isDigitCh, true)
          else some (0, r3, false)
        | [] => some (0, r3, false)
      match expPart with
      | none => none
      | some (ev, rest, hasExp) =>
        if !isFloat1 && !hasExp then some (PV.int mkInt, rest)
        else
          let scaled : Nat × Nat :=
            if 0 ≤ ev then
              let en := ev.toNat
              if en ≤ shift then (mant, shift - en) else (mant * 10 ^ (en - shift), 0)
            else (mant, shift + (-ev).toNat)
          let m : Int := if neg then -(scaled.1 : Int) else (scaled.1 : Int)
          let nd := normDec m scaled.2
          some (PV.float nd.1 nd.2, rest)

mutual
/-- Read one JSON value (model of the json.loads grammar), fuelled. -/
def jValue : Nat → List Char → Option (PV × List Char)
  | 0, _ => none
  | f + 1, s =>
    match s.dropWhile jsonIsWs with
    | [] => none
    | c :: rest =>
      if c = '\x7b' then
        match rest.dropWhile jsonIsWs with
        | '\x7d' :: r2 => some (PV.dict PO.nil, r2)
        | r1 => jMembers f r1 PO.nil
      else if c = '[' then
        match rest.dropWhile jsonIsWs with
        | ']' :: r2 => some (PV.list PA.nil, r2)
        | r1 => jItems f r1 PA.nil
      else if c = '"' then
        (jStringRest (rest.length + 1) rest).map (fun p => (PV.str ⟨p.1⟩, p.2))
      else if c = 't' then
        (dropPrefixQ ['r', 'u', 'e'] rest).map (fun r => (PV.bool true, r))
      else if c = 'f' then
        (dropPrefixQ ['a', 'l', 's', 'e'] rest).map (fun r => (PV.bool false, r))
      else if c = 'n' then
        (dropPrefixQ ['u', 'l', 'l'] rest).map (fun r => (PV.none, r))
      else if c = '-' || isDigitCh c then jNumber (c :: rest)
      else none
/-- Read the members of a JSON object after the opening brace (nonempty
case), accumulating into a dict with later duplicate keys overwriting. -/
def jMembers : Nat → List Char → PO → Option (PV × List Char)
  | 0, _, _ => none
  | f + 1, s, acc =>
    match s with
    | '"' :: rest =>
      match jStringRest (rest.length + 1) rest with
      | none => none
      | some (kchars, r1) =>
        match r1.dropWhile jsonIsWs with
        | ':' :: r2 =>
          match jValue f r2 with
          | none => none
          | some (v, r3) =>
            let acc2 := poSet acc ⟨kchars⟩ v
            match r3.dropWhile jsonIsWs with
            | ',' :: r4 => jMembers f (r4.dropWhile jsonIsWs) acc2
            | '\x7d' :: r4 => some (PV.dict acc2, r4)
            | _ => none
        | _ => none
    | _ => none
/-- Read the items of a JSON array after the opening bracket (nonempty
case). -/
def jItems : Nat → List Char → PA → Option (PV × List Char)
  | 0, _, _ => none
  | f + 1, s, acc =>
    match jValue f s with
    | none => none
    | some (v, r1) =>
      let acc2 := paSnoc acc v
      match r1.dropWhile jsonIsWs with
      | ',' :: r2 => jItems f r2 acc2
      | ']' :: r2 => some (PV.list acc2, r2)
      | _ => none
end

/-- Model of json.loads on a string: one value, with only whitespace
allowed around it; None models a raised JSONDecodeError. -/
def jsonLoads (s : String) : Option PV :=
  match jValue (s.data.length + 2) s.data with
  | some (v, rest) => if rest.dropWhile jsonIsWs = [] then some v else none
  | none => none

/-- JSON escaping of one character as json.dumps does with
ensure_ascii=False: quote, backslash and control characters are escaped,
everything else is emitted as is. -/
def jsonEscCh (c : Char) : String :=
  if c = '"' then "\\\""
  else if c = '\\' then "\\\\"
  else if c = '\n' then "\\n"
  else if c = '\r' then "\\r"
  else if c = '\t' then "\\t"
  else if c = '\x08' then "\\b"
  else if c = '\x0c' then "\\f"
  else if c.toNat < 32 then
    "\\u00" ++ ⟨[hexCh (c.toNat / 16), hexCh (c.toNat % 16)]⟩
  else ⟨[c]⟩

/-- JSON string literal for a Lean string. -/
def jsonStrLit (s : String) : String :=
  "\"" ++ String.join (s.data.map jsonEscCh) ++ "\""

mutual
/-- Model of json.dumps with ensure_ascii=False and default separators. -/
def jsonDumps : PV → String
  | .none => "null"
  | .bool true => "true"
  | .bool false => "false"
  | .int n => pyStrInt n
  | .float m s => decStr m s
  | .str s => jsonStrLit s
  | .list l => "[" ++ jsonDumpsArr l ++ "]"
  | .dict m => "\x7b" ++ jsonDumpsObj m ++ "\x7d"
/-- Comma-joined dump of array items. -/
def jsonDumpsArr : PA → String
  | .nil => ""
  | .cons v .nil => jsonDumps v
  | .cons v tl => jsonDumps v ++ ", " ++ jsonDumpsArr tl
/-- Comma-joined dump of object members. -/
def jsonDumpsObj : PO → String
  | .nil => ""
  | .cons k v .nil => jsonStrLit k ++ ": " ++ jsonDumps v
  | .cons k v tl => jsonStrLit k ++ ": " ++ jsonDumps v ++ ", " ++ jsonDumpsObj tl
end

mutual
/-- Simplified model of repr: container shapes and scalar spellings match
CPython for the values this program builds; string quoting is modelled with
single quotes and no escaping. Only used where the source stringifies a
non-scalar with str. -/
def pyRepr : PV → String
  | .none => "None"
  | .bool true => "True"
  | .bool false => "False"
  | .int n => pyStrInt n
  | .float m s => decStr m s
  | .str s => "'" ++ s ++ "'"
  | .list l => "[" ++ pyReprArr l ++ "]"
  | .dict m => "\x7b" ++ pyReprObj m ++ "\x7d"
/-- Comma-joined repr of list items. -/
def pyReprArr : PA → String
  | .nil => ""
  | .cons v .nil => pyRepr v
  | .cons v tl => pyRepr v ++ ", " ++ pyReprArr tl
/-- Comma-joined repr of dict members. -/
def pyReprObj : PO → String
  | .nil => ""
  | .cons k v .nil => "'" ++ k ++ "': " ++ pyRepr v
  | .cons k v tl => "'" ++ k ++ "': " ++ pyRepr v ++ ", " ++ pyReprObj tl
end

/-- Model of str applied to a value: identity on strings, repr otherwise. -/
def pyStrOf : PV → String
  | .str s => s
  | v => pyRepr v

/-- Model of BedrockClient. detect model type: substring dispatch on the
lower-cased model identifier (bedrock_client.py lines 40 to 60). -/
def detectModelType (modelId : String) : String :=
  let lo := pyLower modelId
  if strContains lo "anthropic" then "anthropic"
  else if strContains lo "meta" then "meta"
  else if strContains lo "amazon" then "amazon"
  else if strContains lo "ai21" then "ai21"
  else if strContains lo "cohere" then "cohere"
  else "unknown"

/-- Model of BedrockClient. create request body (bedrock_client.py lines 62
to 140): the provider-specific request dictionary, with the configured token
limit and temperature passed in as values. -/
def createRequestBody (modelType : String) (prompt : String)
    (maxTokens temperature : PV) : PO :=
  if modelType = "anthropic" then
    PO.cons "prompt" (PV.str ("\n\nHuman: " ++ prompt ++ "\n\nAssistant:"))
      (PO.cons "max_tokens_to_sample" maxTokens
        (PO.cons "temperature" temperature
          (PO.cons "stop_sequences" (PV.list (PA.cons (PV.str "\n\nHuman:") PA.nil)) PO.nil)))
  else if modelType = "meta" then
    PO.cons "prompt" (PV.str prompt)
      (PO.cons "max_gen_len" maxTokens
        (PO.cons "temperature" temperature
          (PO.cons "top_p" (PV.float 9 1) PO.nil)))
  else if modelType = "amazon" then
    PO.cons "inputText" (PV.str prompt)
      (PO.cons "textGenerationConfig"
        (PV.dict (PO.cons "maxTokenCount" maxTokens
          (PO.cons "temperature" temperature
            (PO.cons "topP" (PV.float 9 1)
              (PO.cons "stopSequences" (PV.list PA.nil) PO.nil))))) PO.nil)
  else if modelType = "ai21" then
    PO.cons "prompt" (PV.str prompt)
      (PO.cons "maxTokens" maxTokens
        (PO.cons "temperature" temperature
          (PO.cons "topP" (PV.float 9 1)
            (PO.cons "stopSequences" (PV.list PA.nil)
              (PO.cons "countPenalty" (PV.dict (PO.cons "scale" (PV.int 0) PO.nil))
                (PO.cons "presencePenalty" (PV.dict (PO.cons "scale" (PV.int 0) PO.nil))
                  (PO.cons "frequencyPenalty" (PV.dict (PO.cons "scale" (PV.int 0) PO.nil))
                    PO.nil)))))))
  else if modelType = "cohere" then
    PO.cons "prompt" (PV.str prompt)
      (PO.cons "max_tokens" maxTokens
        (PO.cons "temperature" temperature
          (PO.cons "p" (PV.float 9 1)
            (PO.cons "k" (PV.int 0)
              (PO.cons "stop_sequences" (PV.list PA.nil)
                (PO.cons "return_likelihoods" (PV.str "NONE") PO.nil))))))
  else
    PO.cons "prompt" (PV.str ("\n\nHuman: " ++ prompt ++ "\n\nAssistant:"))
      (PO.cons "max_tokens_to_sample" maxTokens
        (PO.cons "temperature" temperature PO.nil))

/-- The three backticks opening and closing a fenced block. -/
def backticks : List Char := ['\x60', '\x60', '\x60']

/-- After a candidate closing brace: the fence pattern requires optional
whitespace and then three backticks; returns the rest after them. The
whitespace star needs no backtracking here because a whitespace character
can never start the backtick literal. -/
def fenceClose (s : List Char) : Option (List Char) :=
  dropPrefixQ backticks (s.dropWhile pyIsSpace)

/-- Lazy scan for the body of the fence pattern: the regex brace group is
non-greedy, so the first closing brace whose continuation matches wins;
a brace whose continuation fails becomes part of the content. Returns the
captured content (with the final brace) and the rest after the closing
backticks. -/
def lazyBody : Nat → List Char → List Char → Option (List Char × List Char)
  | 0, _, _ => none
  | _ + 1, [], _ => none
  | f + 1, c :: rest, acc =>
    if c = '\x7d' then
      match fenceClose rest with
      | some tail => some (List.reverse ('\x7d' :: acc), tail)
      | none => lazyBody f rest ('\x7d' :: acc)
    else lazyBody f rest (c :: acc)

/-- After the backticks and optional json tag: optional whitespace, an
opening brace, then the lazy body. The whitespace star needs no
backtracking because a whitespace character is never an opening brace. -/
def matchFenceBody (s : List Char) : Option (List Char × List Char) :=
  match s.dropWhile pyIsSpace with
  | '\x7b' :: rest => (lazyBody (rest.length + 1) rest []).map (fun p => ('\x7b' :: p.1, p.2))
  | _ => none

/-- Attempt the fenced-block pattern at exactly this position: three
backticks, an optional json tag (tried first, as the regex group is
greedy), then the body. -/
def matchFenceAt (s : List Char) : Option (List Char × List Char) :=
  match dropPrefixQ backticks s with
  | none => none
  | some afterTicks =>
    match dropPrefixQ "json".data afterTicks with
    | some afterTag =>
      match matchFenceBody afterTag with
      | some r => some r
      | none => matchFenceBody afterTicks
    | none => matchFenceBody afterTicks

/-- Model of re.findall with the fenced-block pattern of
extract json from response (bedrock_client.py line 199): all
non-overlapping matches, scanning left to right, returning the captured
group of each. -/
def findFences : Nat → List Char → List (List Char)
  | 0, _ => []
  | _ + 1, [] => []
  | f + 1, c :: rest =>
    match matchFenceAt (c :: rest) with
    | some (cap, tail) => cap :: findFences f tail
    | none => findFences f rest

/-- Suffix starting at the first opening brace, if any. -/
def suffixFromBrace : List Char → Option (List Char)
  | [] => none
  | c :: t => if c = '\x7b' then some (c :: t) else suffixFromBrace t

/-- Prefix of the list ending at its last closing brace, if any. -/
def cutLastRB : List Char → Option (List Char)
  | [] => none
  | c :: t =>
    match cutLastRB t with
    | some r => some (c :: r)
    | none => if c = '\x7d' then some [c] else none

/-- Model of re.search with the greedy brace pattern of
extract json from response (bedrock_client.py line 222): the span from the
first opening brace to the last closing brace after it. -/
def greedyBraceSpan (s : List Char) : Option (List Char) :=
  match suffixFromBrace s with
  | some (c :: t) => (cutLastRB t).map (fun r => c :: r)
  | _ => none

/-- First fenced capture that parses as a JSON object, as the loop over
findall matches does. -/
def capsParsedDict : List (List Char) → Option PO
  | [] => none
  | cap :: rest =>
    match jsonLoads ⟨cap⟩ with
    | some (PV.dict m) => some m
    | _ => capsParsedDict rest

/-- Strategy one of extract json from response: fenced blocks. -/
def fenceStage (cleaned : String) : Option PO :=
  capsParsedDict (findFences (cleaned.data.length + 1) cleaned.data)

/-- Strategy two: parse the whole cleaned text as a JSON object. -/
def wholeStage (cleaned : String) : Option PO :=
  match jsonLoads cleaned with
  | some (PV.dict m) => some m
  | _ => none

/-- Strategy three: parse the greedy first-to-last brace span. -/
def spanStage (cleaned : String) : Option PO :=
  match greedyBraceSpan cleaned.data with
  | some span =>
    match jsonLoads ⟨span⟩ with
    | some (PV.dict m) => some m
    | _ => none
  | none => none

/-- Model of BedrockClient. extract json from response (bedrock_client.py
lines 185 to 233): strip the text, then try the three strategies in order,
first success winning; None when all fail. -/
def extractJsonFromResponse (responseText : String) : Option PO :=
  let cleaned := pyStrip responseText
  match fenceStage cleaned with
  | some d => some d
  | none =>
    match wholeStage cleaned with
    | some d => some d
    | none => spanStage cleaned

/-- Scan positions left to right (model of re.search): the earliest
position where the attempt succeeds wins. -/
def scanFirst (attempt : List Char → Option (List Char)) : Nat → List Char → Option (List Char)
  | 0, _ => none
  | f + 1, s =>
    match attempt s with
    | some r => some r
    | none =>
      match s with
      | [] => none
      | _ :: t => scanFirst attempt f t

/-- Backtracking for a pattern tail of shape one-or-more of class A
followed by a captured one-or-more of class B: the A run is consumed
greedily and shortened one character at a time (never below one) until a B
character follows; the capture is then the maximal B run. -/
def plusCaptureAux (clB : Char → Bool) (run rest : List Char) : Nat → Option (List Char)
  | 0 => none
  | k + 1 =>
    let s := run.drop (k + 1) ++ rest
    match s with
    | c :: _ => if clB c then some (s.takeWhile clB) else plusCaptureAux clB run rest k
    | [] => plusCaptureAux clB run rest k

/-- One-or-more of class A, then a captured greedy one-or-more of class B,
with the standard backtracking between them. -/
def plusCapture (clA clB : Char → Bool) (t : List Char) : Option (List Char) :=
  plusCaptureAux clB (t.takeWhile clA) (t.dropWhile clA) (t.takeWhile clA).length

/-- One-or-more of class A followed by an arbitrary sub-pattern, with the
same backtracking discipline. -/
def plusTryAux (sub : List Char → Option (List Char)) (run rest : List Char) :
    Nat → Option (List Char)
  | 0 => none
  | k + 1 =>
    match sub (run.drop (k + 1) ++ rest) with
    | some r => some r
    | none => plusTryAux sub run rest k

/-- One-or-more of class A, then the given sub-pattern. -/
def plusTry (clA : Char → Bool) (sub : List Char → Option (List Char)) (t : List Char) :
    Option (List Char) :=
  plusTryAux sub (t.takeWhile clA) (t.dropWhile clA) (t.takeWhile clA).length

/-- Character class of the label separators colon or whitespace. -/
def isColonSpace (c : Char) : Bool :=
  c = ':' || pyIsSpace c

/-- Character class for the amount capture: digit, comma or dot. -/
def isAmountCh (c : Char) : Bool :=
  isDigitCh c || c = ',' || c = '.'

/-- Character class for the invoice-number capture. -/
def isNumeroCh (c : Char) : Bool :=
  ('A' ≤ c && c ≤ 'Z') || ('a' ≤ c && c ≤ 'z') || isDigitCh c || c = '-' || c = '_'

/-- The supplier label pattern of extract manual data (bedrock_client.py
line 388), attempted at one position: one of the three labels
(case-insensitive; their first letters differ so at most one can match
here), then colon-or-space separators, then the rest of the line. -/
def attemptFournisseur (s : List Char) : Option (List Char) :=
  let kw :=
    match dropPrefixCI "fournisseur".data s with
    | some t => some t
    | none =>
      match dropPrefixCI "supplier".data s with
      | some t => some t
      | none => dropPrefixCI "vendeur".data s
  match kw with
  | some t => plusCapture isColonSpace (fun c => c ≠ '\n') t
  | none => none

/-- The amount label pattern (bedrock_client.py line 389): the trailing
optional whitespace and euro sign of the pattern always match, so the
capture is the maximal digit-comma-dot run. -/
def attemptMontant (s : List Char) : Option (List Char) :=
  let kw :=
    match dropPrefixCI "montant".data s with
    | some t => some t
    | none =>
      match dropPrefixCI "amount".data s with
      | some t => some t
      | none => dropPrefixCI "total".data s
  match kw with
  | some t => plusCapture isColonSpace isAmountCh t
  | none => none

/-- The invoice-number label pattern (bedrock_client.py line 390): the two
labels starting with the letter n differ at their accented fourth letter,
so at most one label can match at a given position. -/
def attemptNumero (s : List Char) : Option (List Char) :=
  let kw :=
    match dropPrefixCI "numero".data s with
    | some t => some t
    | none =>
      match dropPrefixCI "numéro".data s with
      | some t => some t
      | none =>
        match dropPrefixCI "facture".data s with
        | some t => some t
        | none => dropPrefixCI "invoice".data s
  match kw with
  | some t => plusCapture (fun c => pyIsSpace c || c = '#' || c = ':') isNumeroCh t
  | none => none

/-- Exactly n digits. -/
def matchNDigits : Nat → List Char → Option (List Char × List Char)
  | 0, s => some ([], s)
  | _ + 1, [] => none
  | n + 1, c :: cs =>
    if isDigitCh c then (matchNDigits n cs).map (fun p => (c :: p.1, p.2)) else none

/-- A slash or dash date separator. -/
def matchSep : List Char → Option (Char × List Char)
  | [] => none
  | c :: cs => if c = '/' || c = '-' then some (c, cs) else none

/-- One three-part digit group shape, returning the captured characters. -/
def dateShape3 (n1 n2 n3 : Nat) (s : List Char) : Option (List Char) :=
  match matchNDigits n1 s with
  | none => none
  | some (d1, r1) =>
    match matchSep r1 with
    | none => none
    | some (s1, r2) =>
      match matchNDigits n2 r2 with
      | none => none
      | some (d2, r3) =>
        match matchSep r3 with
        | none => none
        | some (s2, r4) =>
          match matchNDigits n3 r4 with
          | none => none
          | some (d3, _) => some (d1 ++ [s1] ++ d2 ++ [s2] ++ d3)

/-- The captured date alternation of the date pattern (bedrock_client.py
line 391): day-month-year tried before year-month-day. -/
def matchDateShape (s : List Char) : Option (List Char) :=
  match dateShape3 2 2 4 s with
  | some r => some r
  | none => dateShape3 4 2 2 s

/-- The date label pattern, attempted at one position; the alternation
tries the short label first and falls back to the long one. -/
def attemptDate (s : List Char) : Option (List Char) :=
  let cont := fun (t : List Char) => plusTry isColonSpace matchDateShape t
  match dropPrefixCI "date".data s with
  | some t1 =>
    match cont t1 with
    | some r => some r
    | none =>
      match dropPrefixCI "date facture".data s with
      | some t2 => cont t2
      | none => none
  | none =>
    match dropPrefixCI "date facture".data s with
    | some t2 => cont t2
    | none => none

/-- The generic currency-amount pattern (bedrock_client.py line 400),
attempted at one position: digits, a comma or dot, exactly two digits,
optional whitespace, then a euro sign; the capture stops after the two
digits. -/
def attemptAmount (s : List Char) : Option (List Char) :=
  let ds := s.takeWhile isDigitCh
  if ds = [] then none
  else
    match s.dropWhile isDigitCh with
    | [] => none
    | c :: r1 =>
      if c = '.' || c = ',' then
        match matchNDigits 2 r1 with
        | some (d2, r2) =>
          match r2.dropWhile pyIsSpace with
          | e :: _ => if e = '€' then some (ds ++ [c] ++ d2) else none
          | [] => none
        | none => none
      else none

/-- Replace commas by dots (the amount normalization before float). -/
def replaceCommaDot (s : String) : String :=
  ⟨s.data.map (fun c => if c = ',' then '.' else c)⟩

/-- The all-None record with the seven canonical fields, in schema order
(bedrock_client.py lines 376 to 384). -/
def initSeven : PO :=
  PO.cons "fournisseur" PV.none
    (PO.cons "montant_ht" PV.none
      (PO.cons "numero_facture" PV.none
        (PO.cons "date_facture" PV.none
          (PO.cons "chrono" PV.none
            (PO.cons "couverture" PV.none
              (PO.cons "nom_fichier" PV.none PO.nil))))))

/-- One step of the pattern loop of extract manual data: when the search
matched, store the stripped capture under the field. -/
def setIfFound (d : PO) (f : String) (o : Option (List Char)) : PO :=
  match o with
  | some cap => poSet d f (PV.str (pyStrip ⟨cap⟩))
  | none => d

/-- The generic currency-amount backstop of extract manual data
(bedrock_client.py lines 399 to 405): only fires when the amount field is
still falsy, and silently skips when the float conversion raises. -/
def amountStep (d : PO) (o : Option (List Char)) : PO :=
  match o with
  | some cap =>
    if !pyTruthy (poGetD d "montant_ht" PV.none) then
      match pyParseFloat (replaceCommaDot ⟨cap⟩) with
      | some (m, s) => poSet d "montant_ht" (PV.float m s)
      | none => d
    else d
  | none => d

/-- Model of BedrockClient. extract manual data (bedrock_client.py lines
363 to 407): start from the all-None seven-field record, fill the four
labelled patterns (stored as stripped strings), then the generic currency
amount as a float, only when the labelled amount found nothing. -/
def extractManualData (responseText : String) : PO :=
  let cs := responseText.data
  let fuel := cs.length + 1
  let d1 := setIfFound initSeven "fournisseur" (scanFirst attemptFournisseur fuel cs)
  let d2 := setIfFound d1 "montant_ht" (scanFirst attemptMontant fuel cs)
  let d3 := setIfFound d2 "numero_facture" (scanFirst attemptNumero fuel cs)
  let d4 := setIfFound d3 "date_facture" (scanFirst attemptDate fuel cs)
  amountStep d4 (scanFirst attemptAmount fuel cs)

/-- The alias table of normalize field names (bedrock_client.py lines 246
to 254), in source order. -/
def fieldMappings : List (String × List String) :=
  [("fournisseur", ["fournisseur", "supplier", "vendor", "vendeur"]),
   ("montant_ht", ["montant_ht", "montant", "amount", "total"]),
   ("numero_facture", ["numero_facture", "numero", "invoice_number", "facture_numero"]),
   ("date_facture", ["date_facture", "date", "invoice_date"]),
   ("chrono", ["chrono", "numero_chrono", "chrono_number", "document_chrono"]),
   ("couverture", ["couverture", "periode_couverture", "periode", "period", "coverage_period"]),
   ("nom_fichier", ["nom_fichier", "filename", "file_name"])]

/-- Lookup in the lower-cased view of a dict: the comprehension building
data lower lets a later key overwrite an earlier one that lower-cases the
same, so the last matching entry wins. -/
def lookupLowered : PO → String → Option PV
  | .nil, _ => none
  | .cons k v tl, key =>
    match lookupLowered tl key with
    | some w => some w
    | none => if pyLower k = key then some v else none

/-- First alias (in table order) present in the lower-cased view, and its
value. -/
def findAliasValue (data : PO) (names : List String) : Option PV :=
  names.findSome? (fun name => lookupLowered data (pyLower name))

/-- Does the key lower-case to some alias of some canonical field. -/
def isAliasKey (k : String) : Bool :=
  fieldMappings.any (fun fm => fm.2.any (fun n => pyLower k = pyLower n))

/-- The canonical fields of the normalized record, each set to the first
alias value found, or None. -/
def canonicalPart (data : PO) : PO :=
  fieldMappings.foldr
    (fun fm acc => PO.cons fm.1 ((findAliasValue data fm.2).getD PV.none) acc) PO.nil

/-- Model of BedrockClient. normalize field names (bedrock_client.py lines
235 to 277): the seven canonical fields in schema order, followed by every
input entry whose key matches no alias, unchanged. -/
def normalizeFieldNames (data : PO) : PO :=
  poAppend (canonicalPart data) (poFilter (fun k _ => !isAliasKey k) data)

/-- Model of BedrockClient. validate extracted data (bedrock_client.py
lines 332 to 361): missing required fields only produce log warnings;
missing optional fields are added as None. -/
def validateExtracted (data : PO) : PO :=
  (["chrono", "couverture", "nom_fichier"] : List String).foldl
    (fun d f => if poMem d f then d else poSet d f PV.none) data

/-- The structured-recovery step exactly as claim C1 composes it: extract
json from response and, when that yields None, the manual fallback
(bedrock_client.py lines 308 to 321, without the normalization applied on
the JSON path). -/
def recoverRaw (responseText : String) : PO :=
  match extractJsonFromResponse responseText with
  | some m => m
  | none => extractManualData responseText

/-- The record produced by extract invoice data once the model response
text is in hand (bedrock_client.py lines 308 to 321): the JSON path is
normalized and validated; the fallback path returns the manual record. -/
def extractInvoiceData (responseText : String) : PO :=
  match extractJsonFromResponse responseText with
  | some m => validateExtracted (normalizeFieldNames m)
  | none => extractManualData responseText

/-- Known client names (main.py lines 99 to 110): entities that are never
suppliers. -/
def knownClients : List String :=
  ["BOARDRIDERS", "NA PALI", "QUIKSILVER", "KAUAI", "VANUATU",
   "EMERALD COAST", "PUKALANI", "HANALEI", "TARAWA", "SUNSHINE DIFFUSION"]

/-- Known supplier names (main.py lines 113 to 121). -/
def knownSuppliers : List String :=
  ["TELEFONICA", "CEGEDIM", "BOUYGUES", "ORANGE", "SFR", "FREE", "OVH"]

/-- Model of InvoiceExtractorSimple. fix supplier if needed (main.py lines
87 to 146). A falsy supplier returns the record unchanged; a string
supplier containing a known client substring (upper-cased) is replaced by
the first known supplier found in the upper-cased filename, or by None when
none is found; a truthy non-string supplier raises (upper on a non-string),
modelled as the error branch. -/
def fixSupplierIfNeeded (data : PO) (filename : String) : Except String PO :=
  let fournisseur := poGetD data "fournisseur" (PV.str "")
  if !pyTruthy fournisseur then .ok data
  else
    match fournisseur with
    | PV.str fs =>
      let fu := pyUpper fs
      if knownClients.any (fun c => strContains fu c) then
        let fnu := pyUpper filename
        match knownSuppliers.find? (fun s => strContains fnu s) with
        | some s => .ok (poSet data "fournisseur" (PV.str s))
        | none => .ok (poSet data "fournisseur" PV.none)
      else .ok data
    | _ => .error "AttributeError: upper"

/-- Steps 4 and 5 of InvoiceExtractorSimple. extract from pdf (main.py
lines 72 to 81): supplier correction, filename default, extraction date
and source path metadata. -/
def postExtract (rec : PO) (filename pdfPath extractionDate : String) : Except String PO :=
  match fixSupplierIfNeeded rec filename with
  | .error e => .error e
  | .ok d1 =>
    let d2 :=
      if !pyTruthy (poGetD d1 "nom_fichier" PV.none) then poSet d1 "nom_fichier" (PV.str filename)
      else d1
    let d3 := poSet d2 "extraction_date" (PV.str extractionDate)
    .ok (poSet d3 "pdf_path" (PV.str pdfPath))

/-- Model of InvoiceExtractorSimple. extract from pdf (main.py lines 46 to
85), with the two external effects (PDF text extraction and the model
invocation returning its parsed response text) passed in as outcomes. -/
def extractFromPdf (pdfTextR modelTextR : Except String String)
    (pdfPath filename extractionDate : String) : Except String PO :=
  match pdfTextR with
  | .error e => .error e
  | .ok t =>
    if t = "" then .error ("Aucun texte extrait du PDF: " ++ pdfPath)
    else
      match modelTextR with
      | .error e => .error e
      | .ok rt => postExtract (extractInvoiceData rt) filename pdfPath extractionDate

/-- The per-field column projection list of save invoice data
(dynamodb_client.py lines 171 to 182). -/
def extractedFieldsList : List String :=
  ["fournisseur", "montant_ht", "numero_facture", "date_facture",
   "Le numero Chrono du document", "La période de couverture",
   "nom du fichier que tu trouves ici", "filename", "extraction_date", "pdf_path"]

/-- isinstance(v, (str, int, float, bool)). -/
def isScalarV : PV → Bool
  | .str _ => true
  | .int _ => true
  | .float _ _ => true
  | .bool _ => true
  | _ => false

/-- Model of the item built by DynamoDBClient. save invoice data
(dynamodb_client.py lines 159 to 193) before wire conversion: the
generated id, the creation timestamp, the JSON dump of the whole record as
raw data, then the non-None projected fields (scalars kept, other values
stringified). -/
def saveItemOf (invoiceData : PO) (invoiceId createdAt : String) : PO :=
  let item :=
    PO.cons "invoice_id" (PV.str invoiceId)
      (PO.cons "created_at" (PV.str createdAt)
        (PO.cons "raw_data" (PV.str (jsonDumps (PV.dict invoiceData))) PO.nil))
  extractedFieldsList.foldl
    (fun it f =>
      match poLookup invoiceData f with
      | some v =>
        if isNoneV v then it
        else if isScalarV v then poSet it f v
        else poSet it f (PV.str (pyStrOf v))
      | none => it) item

/-- Value of one hexadecimal digit. -/
def hexVal (h : Char) : Option Nat :=
  if isDigitCh h then some (h.toNat - 48)
  else if 'a' ≤ h && h ≤ 'f' then some (h.toNat - 87)
  else if 'A' ≤ h && h ≤ 'F' then some (h.toNat - 55)
  else none

/-- Model of urllib unquote plus restricted to single-byte escapes: plus
becomes space, a valid percent pair becomes the coded character, anything
else is kept (multi-byte UTF-8 sequences are not modelled). -/
def unquoteChars : Nat → List Char → List Char
  | 0, l => l
  | _ + 1, [] => []
  | f + 1, c :: cs =>
    if c = '+' then ' ' :: unquoteChars f cs
    else if c = '%' then
      match cs with
      | h1 :: h2 :: cs2 =>
        match hexVal h1, hexVal h2 with
        | some a, some b => Char.ofNat (a * 16 + b) :: unquoteChars f cs2
        | _, _ => c :: unquoteChars f cs
      | _ => c :: unquoteChars f cs
    else c :: unquoteChars f cs

/-- Model of unquote plus on a string. -/
def unquotePlus (s : String) : String :=
  ⟨unquoteChars (s.data.length + 1) s.data⟩

/-- Model of Path(key).name: the component after the last slash. -/
def pathName (s : String) : String :=
  ⟨(s.data.reverse.takeWhile (fun c => c ≠ '/')).reverse⟩

/-- Dictionary indexing on a value; None models the KeyError or TypeError
the except clause catches. -/
def pvIndexKey (v : PV) (k : String) : Option PV :=
  match v with
  | .dict m => poLookup m k
  | _ => none

/-- Index zero of a list value. -/
def pvIndex0 : PV → Option PV
  | .list (PA.cons x _) => some x
  | _ => none

/-- Bucket name and object key of the S3 event (main.py lines 229 to 231). -/
def eventBucketKey (event : PV) : Option (String × String) :=
  match pvIndexKey event "Records" with
  | none => none
  | some recs =>
    match pvIndex0 recs with
    | none => none
    | some r0 =>
      match pvIndexKey r0 "s3" with
      | none => none
      | some s3 =>
        match pvIndexKey s3 "bucket", pvIndexKey s3 "object" with
        | some b, some o =>
          match pvIndexKey b "name", pvIndexKey o "key" with
          | some (PV.str bn), some (PV.str k) => some (bn, k)
          | _, _ => none
        | _, _ => none

/-- The failure payload of process s3 event (main.py lines 262 to 270):
status 500 and a body holding the exception text and a fixed message. -/
def errorResponse (msg : String) : PV :=
  PV.dict (PO.cons "statusCode" (PV.int 500)
    (PO.cons "body" (PV.str (jsonDumps (PV.dict
      (PO.cons "error" (PV.str msg)
        (PO.cons "message" (PV.str "Erreur lors du traitement de la facture") PO.nil)))))
      PO.nil))

/-- The success payload of process s3 event (main.py lines 253 to 260). -/
def successResponse (invoiceId : String) (data : PO) : PV :=
  PV.dict (PO.cons "statusCode" (PV.int 200)
    (PO.cons "body" (PV.str (jsonDumps (PV.dict
      (PO.cons "message" (PV.str "Facture traitée avec succès")
        (PO.cons "invoice_id" (PV.str invoiceId)
          (PO.cons "data" (PV.dict data) PO.nil))))))
      PO.nil))

/-- External outcomes of one pipeline invocation: the S3 download, the PDF
text extraction, the model invocation (already parsed to text), and the
DynamoDB write returning the generated id. -/
structure S3Fx where
  downloadR : Except String Unit
  pdfTextR : Except String String
  modelTextR : Except String String
  saveR : Except String String

/-- Model of InvoiceExtractorSimple. process s3 event (main.py lines 217
to 270): any raising stage short-circuits into the 500 payload; success
wraps the record and the generated id into the 200 payload. -/
def processS3Event (event : PV) (fx : S3Fx) (extractionDate : String) : PV :=
  match eventBucketKey event with
  | none => errorResponse "KeyError"
  | some bk =>
    let key := unquotePlus bk.2
    let filename := pathName key
    let localPath := "/tmp/" ++ filename
    match fx.downloadR with
    | .error e => errorResponse e
    | .ok _ =>
      match extractFromPdf fx.pdfTextR fx.modelTextR localPath filename extractionDate with
      | .error e => errorResponse e
      | .ok data =>
        match fx.saveR with
        | .error e => errorResponse e
        | .ok invoiceId => successResponse invoiceId data

mutual
/-- DynamoDB attribute values as this client reads and writes them:
string, number (kept as its textual form), boolean, nested map, string
set, number set and null. -/
inductive DVal where
  | S (s : String)
  | N (s : String)
  | BOOL (b : Bool)
  | M (m : DObj)
  | SS (l : List String)
  | NS (l : List String)
  | NULL (b : Bool)
  deriving DecidableEq
/-- A DynamoDB item or nested map, insertion ordered. -/
inductive DObj where
  | nil
  | cons (k : String) (v : DVal) (tl : DObj)
  deriving DecidableEq
end

/-- Induction on DObj alone. -/
def DObj.ind {motive : DObj → Prop} (hnil : motive .nil)
    (hcons : ∀ k v tl, motive tl → motive (.cons k v tl)) : ∀ m, motive m
  | .nil => hnil
  | .cons k v tl => hcons k v tl (DObj.ind hnil hcons tl)

/-- Keys of a DynamoDB item in order. -/
def doKeys : DObj → List String
  | .nil => []
  | .cons k _ tl => k :: doKeys tl

/-- First-occurrence lookup in a DynamoDB item. -/
def doLookup : DObj → String → Option DVal
  | .nil, _ => none
  | .cons k v tl, key => if k = key then some v else doLookup tl key

/-- All elements of a PA are strings. -/
def paAllStr : PA → Bool
  | .nil => true
  | .cons v tl => isStrV v && paAllStr tl

/-- All elements of a PA are numbers in the isinstance sense (bools
included, since bool is a subclass of int in Python). -/
def paAllNum : PA → Bool
  | .nil => true
  | .cons v tl => isNumLike v && paAllNum tl

/-- The strings of an all-string PA (non-strings cannot occur on the call
path; they are rendered by str as a fallback to keep the function total). -/
def paStrings : PA → List String
  | .nil => []
  | .cons v tl => pyStrOf v :: paStrings tl

/-- str applied to each element (used for the number-set encoding). -/
def paNumStrings : PA → List String
  | .nil => []
  | .cons v tl => pyStrOf v :: paNumStrings tl

/-- Wire encoding of one list value (dynamodb_client.py lines 237 to 245):
string sets and number sets for homogeneous lists, a JSON dump otherwise. -/
def dynListVal (l : PA) : DVal :=
  if paAllStr l then DVal.SS (paStrings l)
  else if paAllNum l then DVal.NS (paNumStrings l)
  else DVal.S (jsonDumps (PV.list l))

/-- Model of DynamoDBClient. convert to dynamo format (dynamodb_client.py
lines 213 to 250): None entries are skipped; strings, booleans and numbers
are tagged; dicts recurse; lists are encoded as sets or a JSON dump.
The source tests bool before int because bool is a subclass of int; the
disjoint constructors express the same dispatch. -/
def toDynamo : PO → DObj
  | .nil => .nil
  | .cons k v tl =>
    match v with
    | .none => toDynamo tl
    | .str s => .cons k (.S s) (toDynamo tl)
    | .bool b => .cons k (.BOOL b) (toDynamo tl)
    | .int n => .cons k (.N (pyStrInt n)) (toDynamo tl)
    | .float m s => .cons k (.N (decStr m s)) (toDynamo tl)
    | .dict m => .cons k (.M (toDynamo m)) (toDynamo tl)
    | .list l => .cons k (dynListVal l) (toDynamo tl)

/-- Decoding of one number string (the N branch of convert from dynamo
format): int or float depending on a dot, falling back to the raw string
when the conversion raises. -/
def fromNumStr (s : String) : PV :=
  if strContains s "." then
    match pyParseFloat s with
    | some (m, sh) => PV.float m sh
    | none => PV.str s
  else
    match pyParseInt s with
    | some n => PV.int n
    | none => PV.str s

/-- Decoding of one number-set element: unlike the N branch this list
comprehension has no exception handler, so a failing conversion raises
(None here). -/
def fromNumStrStrict (s : String) : Option PV :=
  if strContains s "." then
    match pyParseFloat s with
    | some (m, sh) => some (PV.float m sh)
    | none => none
  else
    match pyParseInt s with
    | some n => some (PV.int n)
    | none => none

/-- Strict decoding of a number set. -/
def fromNumList : List String → Option PA
  | [] => some PA.nil
  | s :: rest =>
    match fromNumStrStrict s with
    | none => none
    | some v => (fromNumList rest).map (fun tl => PA.cons v tl)

/-- String list to PA. -/
def strListPA : List String → PA
  | [] => PA.nil
  | s :: rest => PA.cons (PV.str s) (strListPA rest)

/-- The raw data postprocessing at the end of convert from dynamo format
(dynamodb_client.py lines 316 to 320): when a raw data key is present its
JSON parse is added under parsed data (an empty dict when the parse
fails); a non-string raw data value makes loads raise, the None outcome. -/
def postRawData (item : PO) : Option PO :=
  if poMem item "raw_data" then
    match poLookup item "raw_data" with
    | some (PV.str s) =>
      some (poSet item "parsed_data" ((jsonLoads s).getD (PV.dict PO.nil)))
    | _ => none
  else some item

/-- The decoding loop of DynamoDBClient. convert from dynamo format
(dynamodb_client.py lines 289 to 313), accumulating assignments in order
(later duplicate keys overwrite); nested maps recurse through the whole
conversion including its raw data postprocessing. -/
def fromDynamoLoop : DObj → PO → Option PO
  | .nil, acc => some acc
  | .cons k v tl, acc =>
    match v with
    | .S s => fromDynamoLoop tl (poSet acc k (PV.str s))
    | .N s => fromDynamoLoop tl (poSet acc k (fromNumStr s))
    | .BOOL b => fromDynamoLoop tl (poSet acc k (PV.bool b))
    | .M m =>
      match fromDynamoLoop m PO.nil with
      | none => none
      | some innerItem =>
        match postRawData innerItem with
        | none => none
        | some inner => fromDynamoLoop tl (poSet acc k (PV.dict inner))
    | .SS l => fromDynamoLoop tl (poSet acc k (PV.list (strListPA l)))
    | .NS l =>
      match fromNumList l with
      | none => none
      | some pa => fromDynamoLoop tl (poSet acc k (PV.list pa))
    | .NULL _ => fromDynamoLoop tl (poSet acc k PV.none)

/-- Model of DynamoDBClient. convert from dynamo format (dynamodb_client.py
lines 279 to 322): the decoding loop from an empty item, then the raw data
postprocessing. -/
def fromDynamo (d : DObj) : Option PO :=
  match fromDynamoLoop d PO.nil with
  | none => none
  | some item => postRawData item

/-- The seven canonical field names in schema order. -/
def canonSeven : List String :=
  ["fournisseur", "montant_ht", "numero_facture", "date_facture",
   "chrono", "couverture", "nom_fichier"]

/-- The end-to-end manual-fallback scenario input of the spec. -/
def c2input : String :=
  "Facture FAC-2024-001, Fournisseur: ACME, Montant: 1500.50€, Date: 2024-01-15"

/-- What the manual fallback actually produces on that input. -/
def c2actual : PO :=
  PO.cons "fournisseur" (PV.str "ACME, Montant: 1500.50€, Date: 2024-01-15")
    (PO.cons "montant_ht" (PV.str "1500.50")
      (PO.cons "numero_facture" (PV.str "FAC-2024-001")
        (PO.cons "date_facture" (PV.str "2024-01-15")
          (PO.cons "chrono" PV.none
            (PO.cons "couverture" PV.none
              (PO.cons "nom_fichier" PV.none PO.nil))))))

/-- A response that is a bare JSON object with a non-canonical key. -/
def c1jsonInput : String := "\x7b\"foo\": 1\x7d"

/-- A response with a complete fenced code block holding no braces, then a
JSON object outside any fence, then a json-tagged fenced JSON object. The
fence regex pairs the closing backticks of the first block with the
opening backticks of the tagged block and so captures the outer object. -/
def c3strayText : String :=
  "\x60\x60\x60\nno braces here\n\x60\x60\x60\n\x7b\"outer\": 2\x7d\n\x60\x60\x60json\n\x7b\"fenced\": 3\x7d\n\x60\x60\x60"

/-- A well-formed fenced JSON block followed by outer JSON text. -/
def c3goodText : String :=
  "\x60\x60\x60json\n\x7b\"a\": 1\x7d\n\x60\x60\x60\n\x7b\"outer\": 2\x7d"

/-- A record whose extracted supplier is the known client. -/
def c4record : PO :=
  PO.cons "fournisseur" (PV.str "BOARDRIDERS TRADING ESPAÑA") PO.nil

/-- The marshalling witness record of the spec: one string, one number,
one boolean and one nested mapping. -/
def c6rec : PO :=
  PO.cons "fournisseur" (PV.str "ACME")
    (PO.cons "montant_ht" (PV.float 15005 1)
      (PO.cons "flag" (PV.bool true)
        (PO.cons "nested" (PV.dict (PO.cons "k" (PV.str "v") PO.nil)) PO.nil)))

/-- A record carrying a raw data key, the collision that breaks the exact
round trip. -/
def c6rawRec : PO :=
  PO.cons "raw_data" (PV.str "x") PO.nil

/-- The marshalling record extended with a heterogeneous list value, which
exercises the JSON-dump branch of the list encoder. -/
def c6hetRec : PO :=
  PO.cons "fournisseur" (PV.str "ACME")
    (PO.cons "montant_ht" (PV.float 15005 1)
      (PO.cons "flag" (PV.bool true)
        (PO.cons "nested" (PV.dict (PO.cons "k" (PV.str "v") PO.nil))
          (PO.cons "lignes"
            (PV.list (PA.cons (PV.int 1) (PA.cons (PV.str "a") PA.nil)))
            PO.nil))))

/-- A model response for the audit-payload claim. -/
def c8response : String := "\x7b\"fournisseur\": \"ACME\"\x7d"

/-- The record the pipeline actually persists for that response. -/
def c8final : PO :=
  match postExtract (extractInvoiceData c8response) "facture.pdf" "/tmp/facture.pdf"
      "2024-01-01T00:00:00+00:00" with
  | .ok r => r
  | .error _ => PO.nil

/-- A well-formed S3 event. -/
def c9event : PV :=
  PV.dict (PO.cons "Records"
    (PV.list (PA.cons
      (PV.dict (PO.cons "s3"
        (PV.dict (PO.cons "bucket" (PV.dict (PO.cons "name" (PV.str "test-bucket") PO.nil))
          (PO.cons "object" (PV.dict (PO.cons "key" (PV.str "invoices/facture.pdf") PO.nil))
            PO.nil)))
        PO.nil))
      PA.nil))
    PO.nil)

/-- External outcomes where the S3 download raises. -/
def c9fxFail : S3Fx :=
  ⟨Except.error "Erreur S3", Except.ok "text", Except.ok "resp", Except.ok "id"⟩

/-- The failure body produced for that run, as a dict. -/
def c9errBody : PO :=
  PO.cons "error" (PV.str "Erreur S3")
    (PO.cons "message" (PV.str "Erreur lors du traitement de la facture") PO.nil)

/-- Is the wire value a NULL. -/
def isNULLD : DVal → Bool
  | .NULL _ => true
  | _ => false

/-- All entries of a DynamoDB item satisfy the predicate. -/
def doAll (p : String → DVal → Bool) : DObj → Bool
  | .nil => true
  | .cons k v tl => p k v && doAll p tl

/-- Is the string the lower-casing of some alias name (the canonical keys
are such strings, so an entry surviving the non-alias filter can never
lower-case to one of them). -/
def isAliasTargetKey (f : String) : Bool :=
  fieldMappings.any (fun fm => fm.2.any (fun n => pyLower n = f))

/-- Induction on PA alone. -/
def PA.ind {motive : PA → Prop} (hnil : motive .nil)
    (hcons : ∀ v tl, motive tl → motive (.cons v tl)) : ∀ l, motive l
  | .nil => hnil
  | .cons v tl => hcons v tl (PA.ind hnil hcons tl)

/-- Keys are pairwise distinct, as in a Python dict. -/
def poNodup : PO → Bool
  | .nil => true
  | .cons k _ tl => !((poKeys tl).contains k) && poNodup tl

/-- Is the scaled decimal normalized (no trailing fractional zero). Floats
obtained from parsing are always normalized, matching CPython printing. -/
def isNormDec (m : Int) (s : Nat) : Bool :=
  s == 0 || decide (m % 10 ≠ 0)

/-- A number in the narrow sense: int, or normalized float (bools excluded;
a list of bools round-trips into an exception, see the NS decoding). -/
def goodNum : PV → Bool
  | .int _ => true
  | .float m s => isNormDec m s
  | _ => false

/-- A scalar in the sense of the round-trip claim. -/
def goodScalar : PV → Bool
  | .str _ => true
  | .bool _ => true
  | v => goodNum v

/-- A value covered by the round-trip claim: a scalar, a string-keyed
nested mapping of scalars (with unique keys and no raw data key, which
the decoder treats specially), or a homogeneous list of strings or of
numbers. -/
def goodVal : PV → Bool
  | .dict m => poNodup m && !(poMem m "raw_data") && poAll (fun _ w => goodScalar w) m
  | .list l => paAllStr l || paAll goodNum l
  | v => goodScalar v

/-- A record covered by the round-trip claim. -/
def goodRecord (m : PO) : Bool :=
  poNodup m && !(poMem m "raw_data") && poAll (fun _ v => goodVal v) m

/-- A heterogeneous or deeply nested list in the sense of the encoder
dispatch (dynamodb_client.py lines 239 to 244): neither all strings nor
all numbers by isinstance, so it is stored as a JSON dump. -/
def isHetList : PV → Bool
  | .list l => !(paAllStr l) && !(paAllNum l)
  | _ => false

/-- A value covered by the full round-trip claim: reproduced exactly, or a
heterogeneous list reproduced in serialized string form. -/
def okVal (v : PV) : Bool := goodVal v || isHetList v

/-- What the round trip turns one value into: heterogeneous and deeply
nested lists come back as their JSON dump string, everything else
unchanged. -/
def wireVal : PV → PV
  | .list l =>
    if !(paAllStr l) && !(paAllNum l) then PV.str (jsonDumps (PV.list l))
    else PV.list l
  | v => v

/-- The round-trip image of a record, value by value. -/
def wireRecord : PO → PO
  | .nil => .nil
  | .cons k v tl => .cons k (wireVal v) (wireRecord tl)

/-- A record covered by the full round-trip claim, heterogeneous list
values included. -/
def okRecord (m : PO) : Bool :=
  poNodup m && !(poMem m "raw_data") && poAll (fun _ v => okVal v) m

theorem poMem_eq_contains (d : PO) (k : String) : poMem d k = (poKeys d).contains k := by
  induction d using PO.ind with
  | hnil => rfl
  | hcons k2 v tl ih =>
    simp only [poMem, poLookup, poKeys, List.contains_cons]
    by_cases h : k2 = k
    · subst h
      simp
    · have hb : (k == k2) = false := beq_eq_false_iff_ne.mpr (Ne.symm h)
      simp only [poMem] at ih
      simp [h, hb, ih]

theorem poKeys_poSet_mem (d : PO) (k : String) (v : PV) (h : poMem d k = true) :
    poKeys (poSet d k v) = poKeys d := by
  induction d using PO.ind with
  | hnil => simp [poMem, poLookup] at h
  | hcons k2 w tl ih =>
    by_cases hk : k2 = k
    · subst hk
      simp [poSet, poKeys]
    · simp only [poMem, poLookup, hk, if_false] at h
      simp [poSet, poKeys, hk, ih (by simpa [poMem] using h)]

theorem poLookup_poSet_ne (d : PO) (k f : String) (v : PV) (h : k ≠ f) :
    poLookup (poSet d f v) k = poLookup d k := by
  induction d using PO.ind with
  | hnil => simp [poSet, poLookup, Ne.symm h]
  | hcons k2 w tl ih =>
    by_cases hk : k2 = f
    · subst hk
      simp [poSet, poLookup, Ne.symm h]
    · by_cases hk2 : k2 = k
      · subst hk2
        simp [poSet, poLookup, hk]
      · simp [poSet, poLookup, hk, hk2, ih]

theorem poMem_poSet (d : PO) (k f : String) (v : PV) (h : poMem d k = true) :
    poMem (poSet d f v) k = true := by
  by_cases hk : k = f
  · subst hk
    induction d using PO.ind with
    | hnil => simp [poSet, poMem, poLookup]
    | hcons k2 w tl ih =>
      by_cases h2 : k2 = k
      · subst h2
        simp [poSet, poMem, poLookup]
      · simp only [poMem, poLookup, h2, if_false] at h
        by_cases h3 : k2 = k <;>
          simp_all [poSet, poMem, poLookup]
  · simpa [poMem, poLookup_poSet_ne d k f v hk] using h

/-- C2 counterexample: on the spec scenario input the manual fallback does
not produce supplier ACME (the rest-of-line class captures everything after
the label), and the amount is stored as the matched string, not as the
number 1500.50. -/
theorem c2_counterexample :
    poLookup (extractManualData c2input) "fournisseur" ≠ some (PV.str "ACME") ∧
    poLookup (extractManualData c2input) "montant_ht" ≠ some (PV.float 15005 1) := by
  decide

/-- C2 (corrected): on the scenario input the manual fallback yields
invoice number FAC-2024-001 and date 2024-01-15 as the spec expects, but
the supplier field holds the whole rest of the line after the label, and
the amount field holds the matched text 1500.50 as a string (the float
conversion only runs when the labelled amount pattern found nothing). -/
theorem c2_manual_extraction : extractManualData c2input = c2actual := by
  decide

theorem poKeys_setIfFound (d : PO) (f : String) (o : Option (List Char))
    (h : poMem d f = true) : poKeys (setIfFound d f o) = poKeys d := by
  cases o with
  | none => rfl
  | some cap => simpa [setIfFound] using poKeys_poSet_mem d f _ h

theorem poKeys_amountStep (d : PO) (o : Option (List Char))
    (h : poMem d "montant_ht" = true) : poKeys (amountStep d o) = poKeys d := by
  cases o with
  | none => rfl
  | some cap =>
    simp only [amountStep]
    split
    · split
      · exact poKeys_poSet_mem d _ _ h
      · rfl
    · rfl

theorem poMem_of_poKeys_canon (d : PO) (f : String) (hk : poKeys d = canonSeven)
    (hf : canonSeven.contains f = true) : poMem d f = true := by
  rw [poMem_eq_contains, hk, hf]

theorem poKeys_extractManualData (s : String) :
    poKeys (extractManualData s) = canonSeven := by
  unfold extractManualData
  have k0 : poKeys initSeven = canonSeven := rfl
  have k1 := poKeys_setIfFound initSeven "fournisseur"
    (scanFirst attemptFournisseur (s.data.length + 1) s.data)
    (poMem_of_poKeys_canon _ _ k0 (by decide))
  rw [k0] at k1
  have k2 := poKeys_setIfFound _ "montant_ht"
    (scanFirst attemptMontant (s.data.length + 1) s.data)
    (poMem_of_poKeys_canon _ _ k1 (by decide))
  rw [k1] at k2
  have k3 := poKeys_setIfFound _ "numero_facture"
    (scanFirst attemptNumero (s.data.length + 1) s.data)
    (poMem_of_poKeys_canon _ _ k2 (by decide))
  rw [k2] at k3
  have k4 := poKeys_setIfFound _ "date_facture"
    (scanFirst attemptDate (s.data.length + 1) s.data)
    (poMem_of_poKeys_canon _ _ k3 (by decide))
  rw [k3] at k4
  have k5 := poKeys_amountStep _
    (scanFirst attemptAmount (s.data.length + 1) s.data)
    (poMem_of_poKeys_canon _ _ k4 (by decide))
  rw [k4] at k5
  exact k5

/-- C1 counterexample: when the JSON extraction succeeds, the recovery
step returns the parsed object as is; a bare object with a non-canonical
key yields a record without the seven canonical fields. -/
theorem c1_counterexample :
    recoverRaw c1jsonInput = PO.cons "foo" (PV.int 1) PO.nil ∧
    poMem (recoverRaw c1jsonInput) "fournisseur" = false := by
  decide

/-- C1 (corrected): the recovery step is total on strings and, whenever
the JSON extraction yields None, it returns the manual-fallback record,
which always carries exactly the seven canonical fields (possibly all
None). When the JSON extraction succeeds the record keeps the keys the
model produced instead. -/
theorem c1_recovery_total (s : String) (h : extractJsonFromResponse s = none) :
    recoverRaw s = extractManualData s ∧ poKeys (recoverRaw s) = canonSeven := by
  have h1 : recoverRaw s = extractManualData s := by simp [recoverRaw, h]
  exact ⟨h1, by rw [h1, poKeys_extractManualData]⟩

/-- C1 witness: plain prose has no JSON, so the fallback record with the
seven fields is returned. -/
theorem c1_recovery_total_witness :
    extractJsonFromResponse "hello" = none ∧
    (recoverRaw "hello" = extractManualData "hello" ∧
      poKeys (recoverRaw "hello") = canonSeven) :=
  ⟨by decide, c1_recovery_total "hello" (by decide)⟩

/-- C3 counterexample: the text contains a json-tagged fenced block whose
content parses as a JSON object, and a JSON object outside any fence, yet
the extraction returns the outer object: the fence regex can pair the
closing backticks of an earlier block with the opening backticks of the
tagged block. -/
theorem c3_counterexample :
    extractJsonFromResponse c3strayText = some (PO.cons "outer" (PV.int 2) PO.nil) ∧
    extractJsonFromResponse c3strayText ≠ some (PO.cons "fenced" (PV.int 3) PO.nil) ∧
    jsonLoads "\x7b\"fenced\": 3\x7d" = some (PV.dict (PO.cons "fenced" (PV.int 3) PO.nil)) := by
  decide

/-- C3 (corrected): the three strategies are tried in the fixed order with
the first success winning: whenever the fenced-block scan succeeds on the
stripped text, its object is returned and the later strategies are not
consulted. Which object the fenced scan yields follows the regex pairing
of backtick runs, which can differ from markdown fence pairing. -/
theorem c3_first_success (t : String) (d : PO) (h : fenceStage (pyStrip t) = some d) :
    extractJsonFromResponse t = some d := by
  simp [extractJsonFromResponse, h]

/-- C3 witness: with a single well-formed fenced block followed by outer
JSON text, the fenced object wins. -/
theorem c3_first_success_witness :
    fenceStage (pyStrip c3goodText) = some (PO.cons "a" (PV.int 1) PO.nil) ∧
    extractJsonFromResponse c3goodText = some (PO.cons "a" (PV.int 1) PO.nil) :=
  ⟨by decide, c3_first_success c3goodText _ (by decide)⟩

/-- C4 (confirmed): with the known client as extracted supplier, the
corrector rewrites the supplier to TELEFONICA from that filename; and for
every filename whose upper-cased form contains no known supplier
substring, it sets the supplier to None instead of keeping the value. -/
theorem c4_supplier_corrector :
    (∀ d : PO, poLookup d "fournisseur" = some (PV.str "BOARDRIDERS TRADING ESPAÑA") →
      fixSupplierIfNeeded d "2140 TELEFONICA invoice.pdf" =
        .ok (poSet d "fournisseur" (PV.str "TELEFONICA"))) ∧
    (∀ (d : PO) (fn : String),
      poLookup d "fournisseur" = some (PV.str "BOARDRIDERS TRADING ESPAÑA") →
      knownSuppliers.all (fun s => !(strContains (pyUpper fn) s)) = true →
      fixSupplierIfNeeded d fn = .ok (poSet d "fournisseur" PV.none)) := by
  have ht : pyTruthy (PV.str "BOARDRIDERS TRADING ESPAÑA") = true := by decide
  have hclient :
      knownClients.any (fun c => strContains (pyUpper "BOARDRIDERS TRADING ESPAÑA") c) = true := by
    decide
  constructor
  · intro d h
    have hfind :
        knownSuppliers.find? (fun s => strContains (pyUpper "2140 TELEFONICA invoice.pdf") s) =
          some "TELEFONICA" := by decide
    simp [fixSupplierIfNeeded, poGetD, h, ht, hclient, hfind]
  · intro d fn h hno
    have hfind : knownSuppliers.find? (fun s => strContains (pyUpper fn) s) = none := by
      refine List.find?_eq_none.mpr ?_
      intro x hx
      simpa using List.all_eq_true.mp hno x hx
    simp [fixSupplierIfNeeded, poGetD, h, ht, hclient, hfind]

/-- C4 witness: the first part at the TELEFONICA filename, the second at a
filename containing no known supplier. -/
theorem c4_supplier_corrector_witness :
    fixSupplierIfNeeded c4record "2140 TELEFONICA invoice.pdf" =
      .ok (poSet c4record "fournisseur" (PV.str "TELEFONICA")) ∧
    knownSuppliers.all (fun s => !(strContains (pyUpper "invoice.pdf") s)) = true ∧
    fixSupplierIfNeeded c4record "invoice.pdf" = .ok (poSet c4record "fournisseur" PV.none) :=
  ⟨c4_supplier_corrector.1 c4record (by decide), by decide,
   c4_supplier_corrector.2 c4record "invoice.pdf" (by decide) (by decide)⟩

/-- C5 counterexample: the request body for the unmatched identifier is
not identical to the Anthropic one, because the fallback branch omits the
stop sequences field. -/
theorem c5_counterexample :
    detectModelType "unknown.vendor.model-v1" = "unknown" ∧
    createRequestBody (detectModelType "unknown.vendor.model-v1") "P" (PV.int 4096) (PV.float 1 1) ≠
      createRequestBody (detectModelType "anthropic.claude-v2") "P" (PV.int 4096) (PV.float 1 1) := by
  decide

/-- C5 (corrected): an unmatched identifier is classified unknown and its
request body never fails to build; it equals the Anthropic
completion-style body on the prompt, token-limit and temperature fields
but omits the trailing stop sequences field the Anthropic branch adds. -/
theorem c5_unknown_body (prompt : String) (maxTokens temperature : PV) :
    detectModelType "unknown.vendor.model-v1" = "unknown" ∧
    createRequestBody "unknown" prompt maxTokens temperature =
      PO.cons "prompt" (PV.str ("\n\nHuman: " ++ prompt ++ "\n\nAssistant:"))
        (PO.cons "max_tokens_to_sample" maxTokens
          (PO.cons "temperature" temperature PO.nil)) ∧
    createRequestBody "anthropic" prompt maxTokens temperature =
      poAppend (createRequestBody "unknown" prompt maxTokens temperature)
        (PO.cons "stop_sequences" (PV.list (PA.cons (PV.str "\n\nHuman:") PA.nil)) PO.nil) := by
  refine ⟨by decide, ?_, ?_⟩ <;> simp [createRequestBody, poAppend]

theorem isNULLD_dynListVal (l : PA) : isNULLD (dynListVal l) = false := by
  unfold dynListVal
  split
  · rfl
  · split <;> rfl

/-- C10 (confirmed): the wire conversion keeps exactly the keys whose
values are not None (in order), never emits a NULL-typed wire value, and
the reverse conversion does read NULL-typed values as None. -/
theorem c10_marshal_omits_none :
    (∀ item : PO, doKeys (toDynamo item) = poKeys (poFilter (fun _ v => !isNoneV v) item)) ∧
    (∀ item : PO, doAll (fun _ v => !isNULLD v) (toDynamo item) = true) ∧
    fromDynamo (DObj.cons "x" (DVal.NULL true) DObj.nil) = some (PO.cons "x" PV.none PO.nil) := by
  refine ⟨?_, ?_, by decide⟩
  · intro item
    induction item using PO.ind with
    | hnil => rfl
    | hcons k v tl ih => cases v <;> simp [toDynamo, doKeys, poFilter, poKeys, isNoneV, ih]
  · intro item
    induction item using PO.ind with
    | hnil => rfl
    | hcons k v tl ih =>
      cases v
      case none => simpa [toDynamo] using ih
      case list l =>
        simp only [toDynamo, doAll, Bool.and_eq_true]
        exact ⟨by simp [isNULLD_dynListVal], ih⟩
      all_goals simp only [toDynamo, doAll, Bool.and_eq_true]
      all_goals exact ⟨rfl, ih⟩

theorem lookup_save_fold (invoiceData : PO) (fields : List String) (it : PO) (k : String)
    (hk : ¬ k ∈ fields) :
    poLookup (fields.foldl (fun it f =>
      match poLookup invoiceData f with
      | some v =>
        if isNoneV v then it
        else if isScalarV v then poSet it f v
        else poSet it f (PV.str (pyStrOf v))
      | none => it) it) k = poLookup it k := by
  induction fields generalizing it with
  | nil => rfl
  | cons f rest ih =>
    have hkf : k ≠ f := fun h => hk (by simp [h])
    simp only [List.foldl_cons]
    rw [ih _ (fun h => hk (List.mem_cons_of_mem _ h))]
    cases hv : poLookup invoiceData f with
    | none => rfl
    | some v =>
      by_cases h1 : isNoneV v = true
      · simp [h1]
      · by_cases h2 : isScalarV v = true <;>
          simp [h1, h2, poLookup_poSet_ne _ _ _ _ hkf]

/-- C8 (corrected): the persisted raw data field is the JSON serialization
of the record as it stands at save time, after the normalizer, the
supplier corrector and the metadata fields have been applied, not of the
structured-recovery output. -/
theorem c8_raw_payload (responseText fn path now id cat : String) (rec : PO)
    (_h : postExtract (extractInvoiceData responseText) fn path now = .ok rec) :
    poLookup (saveItemOf rec id cat) "raw_data" = some (PV.str (jsonDumps (PV.dict rec))) := by
  unfold saveItemOf
  rw [lookup_save_fold rec extractedFieldsList _ "raw_data" (by decide)]
  simp [poLookup]

/-- C8 witness: the concrete pipeline run for the sample response. -/
theorem c8_raw_payload_witness :
    postExtract (extractInvoiceData c8response) "facture.pdf" "/tmp/facture.pdf"
      "2024-01-01T00:00:00+00:00" = .ok c8final ∧
    poLookup (saveItemOf c8final "ID" "T") "raw_data" =
      some (PV.str (jsonDumps (PV.dict c8final))) :=
  ⟨by rfl,
   c8_raw_payload c8response "facture.pdf" "/tmp/facture.pdf" "2024-01-01T00:00:00+00:00"
     "ID" "T" c8final (by rfl)⟩

set_option maxRecDepth 8192 in
/-- C8 counterexample: for the sample response the stored raw payload is
not the serialization of the structured-recovery output (the pipeline
mutates the record before save). -/
theorem c8_counterexample :
    jsonDumps (PV.dict c8final) ≠ jsonDumps (PV.dict (recoverRaw c8response)) ∧
    poLookup (saveItemOf c8final "ID" "T") "raw_data" =
      some (PV.str (jsonDumps (PV.dict c8final))) := by
  constructor
  · decide
  · decide

theorem poMem_poAppend_left (a b : PO) (f : String) (h : poMem a f = true) :
    poMem (poAppend a b) f = true := by
  induction a using PO.ind with
  | hnil => simp [poMem, poLookup] at h
  | hcons k v tl ih =>
    by_cases hk : k = f <;> simp_all [poAppend, poMem, poLookup]

theorem poMem_validate (d : PO) (f : String) (h : poMem d f = true) :
    poMem (validateExtracted d) f = true := by
  unfold validateExtracted
  simp only [List.foldl_cons, List.foldl_nil]
  have step : ∀ (dm : PO) (g : String), poMem dm f = true →
      poMem (if poMem dm g then dm else poSet dm g PV.none) f = true := by
    intro dm g hm
    split
    · exact hm
    · exact poMem_poSet _ _ _ _ hm
  exact step _ _ (step _ _ (step _ _ h))

theorem poMem_extractInvoiceData (rt f : String) (hf : f ∈ canonSeven) :
    poMem (extractInvoiceData rt) f = true := by
  unfold extractInvoiceData
  cases hj : extractJsonFromResponse rt with
  | none =>
    rw [poMem_eq_contains, poKeys_extractManualData]
    simpa using hf
  | some m =>
    have hcan : poMem (canonicalPart m) f = true := by
      have hk : poKeys (canonicalPart m) = canonSeven := rfl
      rw [poMem_eq_contains, hk]
      simpa using hf
    exact poMem_validate _ _ (poMem_poAppend_left _ _ _ hcan)

theorem poMem_fixSupplier (d : PO) (fn : String) (d2 : PO)
    (h : fixSupplierIfNeeded d fn = .ok d2) (f : String)
    (hf : poMem d f = true) : poMem d2 f = true := by
  simp only [fixSupplierIfNeeded] at h
  by_cases h1 : (!pyTruthy (poGetD d "fournisseur" (PV.str ""))) = true
  · rw [if_pos h1] at h
    cases h
    exact hf
  · rw [if_neg h1] at h
    cases hget : poGetD d "fournisseur" (PV.str "") with
    | str fs =>
      simp only [hget] at h
      by_cases h2 : (knownClients.any fun c => strContains (pyUpper fs) c) = true
      · rw [if_pos h2] at h
        cases hfind : knownSuppliers.find? (fun s => strContains (pyUpper fn) s)
        all_goals rw [hfind] at h
        all_goals cases h
        all_goals exact poMem_poSet _ _ _ _ hf
      · rw [if_neg h2] at h
        cases h
        exact hf
    | none => rw [hget] at h; simp at h
    | bool b => rw [hget] at h; simp at h
    | int n => rw [hget] at h; simp at h
    | float m s => rw [hget] at h; simp at h
    | list l => rw [hget] at h; simp at h
    | dict m => rw [hget] at h; simp at h

theorem poMem_postExtract (rec : PO) (fn path now : String) (rec2 : PO)
    (h : postExtract rec fn path now = .ok rec2) (f : String)
    (hf : poMem rec f = true) : poMem rec2 f = true := by
  simp only [postExtract] at h
  cases hfix : fixSupplierIfNeeded rec fn with
  | error e =>
    rw [hfix] at h
    cases h
  | ok d1 =>
    simp only [hfix] at h
    have h1 := poMem_fixSupplier rec fn d1 hfix f hf
    by_cases hc : (!pyTruthy (poGetD d1 "nom_fichier" PV.none)) = true
    · rw [if_pos hc] at h
      cases h
      exact poMem_poSet _ _ _ _ (poMem_poSet _ _ _ _ (poMem_poSet _ _ _ _ h1))
    · rw [if_neg hc] at h
      cases h
      exact poMem_poSet _ _ _ _ (poMem_poSet _ _ _ _ h1)

theorem extractFromPdf_ok (p m : Except String String) (path fn now : String) (data : PO)
    (h : extractFromPdf p m path fn now = .ok data) :
    ∃ rt, m = .ok rt ∧ postExtract (extractInvoiceData rt) fn path now = .ok data := by
  unfold extractFromPdf at h
  cases p with
  | error e => simp at h
  | ok t =>
    by_cases ht : t = ""
    · simp [ht] at h
    · simp only [ht, if_false] at h
      cases m with
      | error e => simp at h
      | ok rt => exact ⟨rt, rfl, by simpa using h⟩

/-- C9 (corrected): every pipeline outcome is either the fixed failure
payload (status 500, a body holding only the exception text and a generic
message, with no stage name) or the success payload whose record carries
all seven canonical fields. -/
theorem c9_outcome_shape (event : PV) (fx : S3Fx) (now : String) :
    (∃ m, processS3Event event fx now = errorResponse m) ∨
    (∃ id rec, processS3Event event fx now = successResponse id rec ∧
      canonSeven.all (fun f => poMem rec f) = true) := by
  rcases hbk : eventBucketKey event with _ | bk
  · exact Or.inl ⟨"KeyError", by simp [processS3Event, hbk]⟩
  · rcases hdl : fx.downloadR with e | u
    · exact Or.inl ⟨e, by simp [processS3Event, hbk, hdl]⟩
    · rcases hex : extractFromPdf fx.pdfTextR fx.modelTextR
          ("/tmp/" ++ pathName (unquotePlus bk.2)) (pathName (unquotePlus bk.2)) now
        with e | data
      · exact Or.inl ⟨e, by simp [processS3Event, hbk, hdl, hex]⟩
      · rcases hsv : fx.saveR with e | invoiceId
        · exact Or.inl ⟨e, by simp [processS3Event, hbk, hdl, hex, hsv]⟩
        · refine Or.inr ⟨invoiceId, data,
            by simp [processS3Event, hbk, hdl, hex, hsv], ?_⟩
          refine List.all_eq_true.mpr ?_
          intro f hf
          obtain ⟨rt, _hm, hpost⟩ := extractFromPdf_ok _ _ _ _ _ _ hex
          exact poMem_postExtract _ _ _ _ _ hpost f
            (poMem_extractInvoiceData rt f (by simpa using hf))

/-- C9 counterexample: a failing run produces status 500 with a body whose
only keys are error and message; no stage name is carried. -/
theorem c9_counterexample :
    processS3Event c9event c9fxFail "T" = errorResponse "Erreur S3" ∧
    errorResponse "Erreur S3" =
      PV.dict (PO.cons "statusCode" (PV.int 500)
        (PO.cons "body" (PV.str (jsonDumps (PV.dict c9errBody))) PO.nil)) ∧
    jsonLoads (jsonDumps (PV.dict c9errBody)) = some (PV.dict c9errBody) ∧
    poMem c9errBody "stage" = false := by
  refine ⟨by decide, by decide, by decide, by decide⟩

theorem lookupLowered_append (a b : PO) (key : String) :
    lookupLowered (poAppend a b) key =
      match lookupLowered b key with
      | some w => some w
      | none => lookupLowered a key := by
  induction a using PO.ind with
  | hnil =>
    simp only [poAppend]
    cases h : lookupLowered b key <;> rfl
  | hcons k v tl ih =>
    simp only [poAppend, lookupLowered, ih]
    cases lookupLowered b key <;> rfl

theorem poFilter_poAppend (p : String → PV → Bool) (a b : PO) :
    poFilter p (poAppend a b) = poAppend (poFilter p a) (poFilter p b) := by
  induction a using PO.ind with
  | hnil => rfl
  | hcons k v tl ih =>
    by_cases h : p k v = true <;> simp [poFilter, poAppend, h, ih]

theorem poFilter_idem (p : String → PV → Bool) (d : PO) :
    poFilter p (poFilter p d) = poFilter p d := by
  induction d using PO.ind with
  | hnil => rfl
  | hcons k v tl ih =>
    by_cases h : p k v = true <;> simp [poFilter, h, ih]

theorem lookupLowered_extras_none (d : PO) (f : String) (hf : isAliasTargetKey f = true) :
    lookupLowered (poFilter (fun k _ => !isAliasKey k) d) f = none := by
  induction d using PO.ind with
  | hnil => rfl
  | hcons k v tl ih =>
    cases hb : isAliasKey k
    · have hpk : ¬ pyLower k = f := by
        intro hkf
        obtain ⟨fm, hfm, hn⟩ := List.any_eq_true.mp hf
        obtain ⟨n, hnmem, hpn⟩ := List.any_eq_true.mp hn
        have hkey : isAliasKey k = true := by
          refine List.any_eq_true.mpr ⟨fm, hfm, List.any_eq_true.mpr ⟨n, hnmem, ?_⟩⟩
          simp only [decide_eq_true_eq] at hpn ⊢
          rw [hkf, hpn]
        rw [hb] at hkey
        cases hkey
      simp [poFilter, hb, lookupLowered, ih, hpk]
    · simp [poFilter, hb, ih]

/-- C7 (confirmed): the field normalizer is idempotent. Every canonical
field name is the first alias of itself and survives normalization, and
unmatched extra entries can never collide with an alias, so a second pass
reproduces the first. -/
theorem c7_normalize_idempotent (d : PO) :
    normalizeFieldNames (normalizeFieldNames d) = normalizeFieldNames d := by
  have main : ∀ (f : String) (names : List String), pyLower f = f →
      isAliasTargetKey f = true → names.head? = some f →
      lookupLowered (canonicalPart d) f = some ((findAliasValue d names).getD PV.none) →
      findAliasValue (normalizeFieldNames d) names =
        some ((findAliasValue d names).getD PV.none) := by
    intro f names h1 h2 h3 h4
    cases names with
    | nil => cases h3
    | cons n rest =>
      have hn : n = f := by simpa using h3
      subst hn
      simp only [findAliasValue, List.findSome?_cons, h1, normalizeFieldNames,
        lookupLowered_append, lookupLowered_extras_none d n h2, h4]
  have hextras : poFilter (fun k _ => !isAliasKey k) (normalizeFieldNames d) =
      poFilter (fun k _ => !isAliasKey k) d := by
    simp only [normalizeFieldNames]
    rw [poFilter_poAppend]
    rw [show poFilter (fun k _ => !isAliasKey k) (canonicalPart d) = PO.nil from by
      simp +decide [canonicalPart, fieldMappings, poFilter]]
    rw [poFilter_idem]
    rfl
  have hcanon : canonicalPart (normalizeFieldNames d) = canonicalPart d := by
    simp only [canonicalPart, fieldMappings, List.foldr_cons, List.foldr_nil]
    rw [main "fournisseur" ["fournisseur", "supplier", "vendor", "vendeur"]
      (by decide) (by decide) rfl
      (by simp +decide [canonicalPart, fieldMappings, lookupLowered])]
    rw [main "montant_ht" ["montant_ht", "montant", "amount", "total"]
      (by decide) (by decide) rfl
      (by simp +decide [canonicalPart, fieldMappings, lookupLowered])]
    rw [main "numero_facture" ["numero_facture", "numero", "invoice_number", "facture_numero"]
      (by decide) (by decide) rfl
      (by simp +decide [canonicalPart, fieldMappings, lookupLowered])]
    rw [main "date_facture" ["date_facture", "date", "invoice_date"]
      (by decide) (by decide) rfl
      (by simp +decide [canonicalPart, fieldMappings, lookupLowered])]
    rw [main "chrono" ["chrono", "numero_chrono", "chrono_number", "document_chrono"]
      (by decide) (by decide) rfl
      (by simp +decide [canonicalPart, fieldMappings, lookupLowered])]
    rw [main "couverture" ["couverture", "periode_couverture", "periode", "period", "coverage_period"]
      (by decide) (by decide) rfl
      (by simp +decide [canonicalPart, fieldMappings, lookupLowered])]
    rw [main "nom_fichier" ["nom_fichier", "filename", "file_name"]
      (by decide) (by decide) rfl
      (by simp +decide [canonicalPart, fieldMappings, lookupLowered])]
    simp
  calc normalizeFieldNames (normalizeFieldNames d)
      = poAppend (canonicalPart (normalizeFieldNames d))
          (poFilter (fun k _ => !isAliasKey k) (normalizeFieldNames d)) := rfl
    _ = poAppend (canonicalPart d) (poFilter (fun k _ => !isAliasKey k) d) := by
        rw [hcanon, hextras]
    _ = normalizeFieldNames d := rfl

theorem charOfNat_toNat (m : Nat) (h : m < 55296) : (Char.ofNat m).toNat = m := by
  unfold Char.ofNat
  rw [dif_pos (Or.inl h)]
  rfl

theorem digit_not_space (c : Char) (h : isDigitCh c = true) : pyIsSpace c = false := by
  cases hs : pyIsSpace c
  · rfl
  · exfalso
    unfold pyIsSpace at hs
    simp only [Bool.or_eq_true, decide_eq_true_eq] at hs
    rcases hs with ((((h1 | h1) | h1) | h1) | h1) | h1 <;> subst h1 <;>
      exact absurd h (by decide)

theorem digit_ne_chars (c : Char) (h : isDigitCh c = true) :
    c ≠ '.' ∧ c ≠ '-' ∧ c ≠ '+' ∧ c ≠ ',' ∧ c ≠ 'e' ∧ c ≠ 'E' := by
  refine ⟨?_, ?_, ?_, ?_, ?_, ?_⟩ <;> intro h1 <;> subst h1 <;> exact absurd h (by decide)

theorem natDigits_all_digit (fuel n : Nat) :
    ∀ c ∈ natDigits fuel n, isDigitCh c = true := by
  induction fuel generalizing n with
  | zero => intro c hc; cases hc
  | succ f ih =>
    intro c hc
    unfold natDigits at hc
    by_cases hlt : n < 10
    · rw [if_pos hlt] at hc
      simp only [List.mem_singleton] at hc
      subst hc
      interval_cases n <;> decide
    · rw [if_neg hlt] at hc
      rcases List.mem_append.mp hc with h1 | h1
      · exact ih _ c h1
      · simp only [List.mem_singleton] at h1
        subst h1
        have hm : n % 10 < 10 := Nat.mod_lt _ (by omega)
        revert hm
        generalize n % 10 = k
        intro hm
        interval_cases k <;> decide

theorem digitsToNat_foldl_init (b : List Char) (i : Nat) :
    List.foldl (fun a c => a * 10 + (c.toNat - 48)) i b = i * 10 ^ b.length + digitsToNat b := by
  induction b generalizing i with
  | nil => simp [digitsToNat]
  | cons c t ih =>
    have e1 : digitsToNat (c :: t) = (c.toNat - 48) * 10 ^ t.length + digitsToNat t := by
      unfold digitsToNat
      simp only [List.foldl_cons]
      rw [ih]
      simp [digitsToNat]
    simp only [List.foldl_cons, List.length_cons]
    rw [ih, e1]
    ring

theorem digitsToNat_append (a b : List Char) :
    digitsToNat (a ++ b) = digitsToNat a * 10 ^ b.length + digitsToNat b := by
  unfold digitsToNat
  rw [List.foldl_append]
  exact digitsToNat_foldl_init b _

theorem digitsToNat_natDigits (fuel n : Nat) (h : n < 10 ^ fuel) :
    digitsToNat (natDigits fuel n) = n := by
  induction fuel generalizing n with
  | zero =>
    simp only [pow_zero, Nat.lt_one_iff] at h
    subst h
    rfl
  | succ f ih =>
    unfold natDigits
    by_cases hlt : n < 10
    · rw [if_pos hlt]
      unfold digitsToNat
      simp only [List.foldl_cons, List.foldl_nil]
      rw [charOfNat_toNat _ (by omega)]
      omega
    · rw [if_neg hlt]
      have e1 : digitsToNat (natDigits f (n / 10) ++ [Char.ofNat (48 + n % 10)]) =
          digitsToNat (natDigits f (n / 10)) * 10 + ((Char.ofNat (48 + n % 10)).toNat - 48) := by
        rw [digitsToNat_append]
        unfold digitsToNat
        simp only [List.length_singleton, pow_one, List.foldl_cons, List.foldl_nil]
        omega
      have hp : n < 10 ^ f * 10 := by
        rw [← pow_succ]
        exact h
      rw [e1, ih (n / 10) (by omega), charOfNat_toNat _ (by omega)]
      omega

theorem natDigits_roundtrip (n : Nat) : digitsToNat (natDigits (n + 1) n) = n := by
  refine digitsToNat_natDigits (n + 1) n ?_
  calc n < 10 ^ n + 1 := by
        rcases Nat.eq_zero_or_pos n with h | _
        · subst h
          norm_num
        · have := Nat.lt_pow_self (show 1 < 10 by norm_num) n
          omega
    _ ≤ 10 ^ (n + 1) := by
        have h1 : (10 : Nat) ^ n ≥ 1 := Nat.one_le_pow _ _ (by norm_num)
        have h2 : (10 : Nat) ^ (n + 1) = 10 ^ n * 10 := pow_succ 10 n
        omega

theorem dropWhile_eq_self_of_all (p : Char → Bool) (l : List Char)
    (h : ∀ c ∈ l, p c = false) : l.dropWhile p = l := by
  cases l with
  | nil => rfl
  | cons c t => simp [List.dropWhile_cons, h c (by simp)]

theorem stripChars_eq_self (l : List Char) (h : ∀ c ∈ l, pyIsSpace c = false) :
    stripChars l = l := by
  unfold stripChars
  rw [dropWhile_eq_self_of_all _ _ h,
    dropWhile_eq_self_of_all _ _ (fun c hc => h c (List.mem_reverse.mp hc)),
    List.reverse_reverse]

theorem takeWhile_all (p : Char → Bool) (l : List Char) (h : ∀ c ∈ l, p c = true) :
    l.takeWhile p = l ∧ l.dropWhile p = [] := by
  induction l with
  | nil => exact ⟨rfl, rfl⟩
  | cons c t ih =>
    have hc := h c (by simp)
    have ht := ih (fun x hx => h x (by simp [hx]))
    simp [List.takeWhile_cons, List.dropWhile_cons, hc, ht.1, ht.2]

theorem takeWhile_append_stop (p : Char → Bool) (l1 : List Char) (d : Char) (l2 : List Char)
    (h1 : ∀ c ∈ l1, p c = true) (hd : p d = false) :
    (l1 ++ d :: l2).takeWhile p = l1 ∧ (l1 ++ d :: l2).dropWhile p = d :: l2 := by
  induction l1 with
  | nil => simp [List.takeWhile_cons, List.dropWhile_cons, hd]
  | cons c t ih =>
    have hc := h1 c (by simp)
    have ht := ih (fun x hx => h1 x (by simp [hx]))
    simp [List.takeWhile_cons, List.dropWhile_cons, hc, ht.1, ht.2]

theorem containsSub_singleton_eq_false (c : Char) (l : List Char) (h : ∀ x ∈ l, x ≠ c) :
    containsSub [c] l = false := by
  induction l with
  | nil => rfl
  | cons x t ih =>
    have hx : x ≠ c := h x (by simp)
    have ht := ih (fun y hy => h y (by simp [hy]))
    simp only [containsSub, startsWithCh, dropPrefixQ, ht]
    simp [hx]

theorem pyStrNat_all_digit (n : Nat) : ∀ c ∈ (pyStrNat n).data, isDigitCh c = true := by
  intro c hc
  exact natDigits_all_digit (n + 1) n c hc

theorem pyParseInt_pyStrInt (n : Int) : pyParseInt (pyStrInt n) = some n := by
  have hall : ∀ c ∈ natDigits (n.natAbs + 1) n.natAbs, isDigitCh c = true :=
    natDigits_all_digit _ _
  have hne : natDigits (n.natAbs + 1) n.natAbs ≠ [] := by
    unfold natDigits
    by_cases h : n.natAbs < 10 <;> simp [h]
  have htk := takeWhile_all isDigitCh _ hall
  have hrt : digitsToNat (natDigits (n.natAbs + 1) n.natAbs) = n.natAbs :=
    natDigits_roundtrip n.natAbs
  by_cases hneg : n < 0
  · have hdata : (pyStrInt n).data = '-' :: natDigits (n.natAbs + 1) n.natAbs := by
      unfold pyStrInt
      rw [if_pos hneg, String.data_append]
      rfl
    have hnsp : ∀ c ∈ '-' :: natDigits (n.natAbs + 1) n.natAbs, pyIsSpace c = false := by
      intro c hc
      rcases List.mem_cons.mp hc with h | h
      · subst h
        decide
      · exact digit_not_space c (hall c h)
    simp only [pyParseInt, hdata, stripChars_eq_self _ hnsp]
    simp [htk.1, htk.2, hne, hrt]
    rw [abs_of_neg hneg]
    ring
  · have hdata : (pyStrInt n).data = natDigits (n.natAbs + 1) n.natAbs := by
      unfold pyStrInt
      rw [if_neg hneg]
      rfl
    have hnsp : ∀ c ∈ natDigits (n.natAbs + 1) n.natAbs, pyIsSpace c = false :=
      fun c hc => digit_not_space c (hall c hc)
    simp only [pyParseInt, hdata, stripChars_eq_self _ hnsp]
    cases hds : natDigits (n.natAbs + 1) n.natAbs with
    | nil => exact absurd hds hne
    | cons c t =>
      have hcd : isDigitCh c = true := hall c (by rw [hds]; simp)
      have hc1 : c ≠ '-' := (digit_ne_chars c hcd).2.1
      have hc2 : c ≠ '+' := (digit_ne_chars c hcd).2.2.1
      rw [hds] at htk hrt
      split
      · rename_i rest heq
        rw [List.cons.injEq] at heq
        exact absurd heq.1 hc1
      · rename_i rest heq
        rw [List.cons.injEq] at heq
        exact absurd heq.1 hc2
      · have hne2 : (c :: t ≠ []) := by simp
        have habs2 : (n.natAbs : Int) = n := by omega
        simp [htk.1, htk.2, hne2, hrt, habs2]

theorem digitsToNat_cons (c : Char) (t : List Char) :
    digitsToNat (c :: t) = (c.toNat - 48) * 10 ^ t.length + digitsToNat t := by
  unfold digitsToNat
  simp only [List.foldl_cons]
  rw [digitsToNat_foldl_init]
  simp [digitsToNat]

theorem digitsToNat_replicate_zero (k : Nat) : digitsToNat (List.replicate k '0') = 0 := by
  induction k with
  | zero => rfl
  | succ j ih => simp [List.replicate_succ, digitsToNat_cons, ih]

theorem normDec_mul10 (m : Int) : normDec (m * 10) 1 = (m, 0) := by
  unfold normDec
  rw [if_pos (Int.mul_emod_left m 10)]
  unfold normDec
  rw [Int.mul_ediv_cancel m (by norm_num)]

theorem normDec_stable (m : Int) (s : Nat) (h : ¬ m % 10 = 0) (hs : s ≠ 0) :
    normDec m s = (m, s) := by
  cases s with
  | zero => exact absurd rfl hs
  | succ t =>
    unfold normDec
    rw [if_neg h]

theorem parseDecCore_digits (ip fp : List Char) (hip : ∀ c ∈ ip, isDigitCh c = true)
    (hfp : ∀ c ∈ fp, isDigitCh c = true) (hne : ip ≠ [] ∨ fp ≠ []) :
    parseDecCore (ip ++ '.' :: fp) =
      some (digitsToNat ip * 10 ^ fp.length + digitsToNat fp, fp.length, []) := by
  unfold parseDecCore
  have h1 := takeWhile_append_stop isDigitCh ip '.' fp hip (by decide)
  have h2 := takeWhile_all isDigitCh fp hfp
  rw [h1.1, h1.2]
  simp only [h2.1, h2.2]
  rcases hne with h | h <;> simp [h]

theorem pyParseFloat_digits (sign : Bool) (ip fp : List Char)
    (hip : ∀ c ∈ ip, isDigitCh c = true) (hfp : ∀ c ∈ fp, isDigitCh c = true)
    (hipne : ip ≠ []) :
    pyParseFloat ⟨(if sign then ['-'] else []) ++ ip ++ '.' :: fp⟩ =
      some (normDec
        (if sign then -(digitsToNat (ip ++ fp) : Int) else (digitsToNat (ip ++ fp) : Int))
        fp.length) := by
  have hnsp : ∀ c ∈ (if sign then ['-'] else []) ++ ip ++ '.' :: fp, pyIsSpace c = false := by
    intro c hc
    rcases List.mem_append.mp hc with h | h
    · rcases List.mem_append.mp h with h2 | h2
      · cases sign
        · simp at h2
        · simp only [if_true, List.mem_singleton] at h2
          subst h2
          decide
      · exact digit_not_space c (hip c h2)
    · rcases List.mem_cons.mp h with h3 | h3
      · subst h3
        decide
      · exact digit_not_space c (hfp c h3)
  have hcore := parseDecCore_digits ip fp hip hfp (Or.inl hipne)
  have hdig : digitsToNat ip * 10 ^ fp.length + digitsToNat fp = digitsToNat (ip ++ fp) := by
    rw [digitsToNat_append]
  simp only [pyParseFloat]
  rw [stripChars_eq_self _ hnsp]
  cases sign with
  | true =>
    simp only [if_true, List.singleton_append, List.cons_append, List.nil_append, hcore, hdig]
  | false =>
    rw [show (if (false = true) then ['-'] else ([] : List Char)) = [] from rfl]
    rw [List.nil_append]
    cases hi : ip with
    | nil => exact absurd hi hipne
    | cons c t =>
      have hcd : isDigitCh c = true := hip c (by rw [hi]; simp)
      rw [hi] at hcore hdig
      simp only [List.cons_append]
      split
      · rename_i neg rest heq
        split at heq
        · rename_i rest2 heq2
          rw [List.cons.injEq] at heq2
          exact absurd heq2.1 (digit_ne_chars c hcd).2.1
        · rename_i rest2 heq2
          rw [List.cons.injEq] at heq2
          exact absurd heq2.1 (digit_ne_chars c hcd).2.2.1
        · rw [Option.some.injEq, Prod.mk.injEq] at heq
          obtain ⟨hneg, hrest⟩ := heq
          subst hneg
          subst hrest
          rw [show c :: (t ++ '.' :: fp) = (c :: t) ++ '.' :: fp from rfl, hcore]
          simp [hdig]
      · rename_i heq
        split at heq <;> simp_all

theorem pyParseFloat_decStr (m : Int) (s : Nat) (hnorm : isNormDec m s = true) :
    pyParseFloat (decStr m s) = some (m, s) := by
  have hall : ∀ c ∈ natDigits (m.natAbs + 1) m.natAbs, isDigitCh c = true :=
    natDigits_all_digit _ _
  have hne : natDigits (m.natAbs + 1) m.natAbs ≠ [] := by
    unfold natDigits
    by_cases h : m.natAbs < 10 <;> simp [h]
  have hrt : digitsToNat (natDigits (m.natAbs + 1) m.natAbs) = m.natAbs :=
    natDigits_roundtrip m.natAbs
  by_cases hs : s = 0
  · subst hs
    have hz : ∀ c ∈ ['0'], isDigitCh c = true := by decide
    by_cases hneg : m < 0
    · have hdata : (decStr m 0).data =
          (if true then ['-'] else []) ++ natDigits (m.natAbs + 1) m.natAbs ++ '.' :: ['0'] := by
        unfold decStr pyStrInt
        rw [if_pos rfl, if_pos hneg]
        simp [String.data_append, pyStrNat]
      rw [String.ext hdata, pyParseFloat_digits true _ _ hall hz hne, digitsToNat_append]
      simp only [List.length_singleton, pow_one, hrt]
      rw [show digitsToNat ['0'] = 0 from rfl]
      rw [show -(((m.natAbs * 10 + 0 : Nat)) : Int) = -(m.natAbs : Int) * 10 by push_cast; ring]
      rw [if_pos trivial, normDec_mul10, show -(m.natAbs : Int) = m by omega]
    · have hdata : (decStr m 0).data =
          (if false then ['-'] else []) ++ natDigits (m.natAbs + 1) m.natAbs ++ '.' :: ['0'] := by
        unfold decStr pyStrInt
        rw [if_pos rfl, if_neg hneg]
        simp [String.data_append, pyStrNat]
      rw [String.ext hdata, pyParseFloat_digits false _ _ hall hz hne, digitsToNat_append]
      simp only [List.length_singleton, pow_one, hrt]
      rw [show digitsToNat ['0'] = 0 from rfl]
      rw [show (((m.natAbs * 10 + 0 : Nat)) : Int) = (m.natAbs : Int) * 10 by push_cast; ring]
      rw [if_neg (by decide : ¬ (false = true)), normDec_mul10,
        show ((m.natAbs : Int)) = m by omega]
  · have hm10 : ¬ m % 10 = 0 := by
      unfold isNormDec at hnorm
      simp only [beq_iff_eq, Bool.or_eq_true, decide_eq_true_eq] at hnorm
      rcases hnorm with h | h
      · exact absurd h hs
      · exact h
    obtain ⟨D, hD⟩ : ∃ D, natDigits (m.natAbs + 1) m.natAbs = D := ⟨_, rfl⟩
    rw [hD] at hall hne hrt
    have hDlen : 1 ≤ D.length := List.length_pos.mpr hne
    set L := (List.replicate (s + 1 - D.length) '0' ++ D) with hLdef
    have hpd : ∀ c ∈ L, isDigitCh c = true := by
      intro c hc
      rcases List.mem_append.mp hc with h | h
      · rw [List.eq_of_mem_replicate h]
        decide
      · exact hall c h
    have hlen : L.length = (s + 1 - D.length) + D.length := by
      simp [hLdef]
    have hdigL : digitsToNat L = m.natAbs := by
      rw [hLdef, digitsToNat_append, digitsToNat_replicate_zero, hrt]
      simp
    have htd := List.take_append_drop (L.length - s) L
    have hfplen : (L.drop (L.length - s)).length = s := by
      simp only [List.length_drop]
      omega
    have hipne : L.take (L.length - s) ≠ [] := by
      apply List.ne_nil_of_length_pos
      simp only [List.length_take]
      omega
    have hipd : ∀ c ∈ L.take (L.length - s), isDigitCh c = true :=
      fun c hc => hpd c (List.mem_of_mem_take hc)
    have hfpd : ∀ c ∈ L.drop (L.length - s), isDigitCh c = true :=
      fun c hc => hpd c (List.mem_of_mem_drop hc)
    by_cases hneg : m < 0
    · have hdata : (decStr m s).data =
          (if true then ['-'] else []) ++ L.take (L.length - s) ++ '.' :: L.drop (L.length - s) := by
        simp only [decStr]
        rw [if_neg hs, hD, ← hLdef, if_pos hneg]
        simp [String.data_append, List.append_assoc]
      rw [String.ext hdata, pyParseFloat_digits true _ _ hipd hfpd hipne, htd, hdigL, hfplen]
      rw [show -(m.natAbs : Int) = m by omega, if_pos (rfl : true = true),
        normDec_stable m s hm10 hs]
    · have hdata : (decStr m s).data =
          (if false then ['-'] else []) ++ L.take (L.length - s) ++ '.' :: L.drop (L.length - s) := by
        simp only [decStr]
        rw [if_neg hs, hD, ← hLdef, if_neg hneg]
        simp [String.data_append, List.append_assoc]
      rw [String.ext hdata, pyParseFloat_digits false _ _ hipd hfpd hipne, htd, hdigL, hfplen]
      rw [show ((m.natAbs : Int)) = m by omega, if_neg (by decide : ¬ (false = true)),
        normDec_stable m s hm10 hs]

theorem containsSub_singleton_of_mem (c : Char) (l : List Char) (h : c ∈ l) :
    containsSub [c] l = true := by
  induction l with
  | nil => cases h
  | cons x t ih =>
    rcases List.mem_cons.mp h with h1 | h1
    · subst h1
      simp [containsSub, startsWithCh, dropPrefixQ]
    · simp [containsSub, ih h1]

theorem pyStrInt_no_dot (n : Int) : strContains (pyStrInt n) "." = false := by
  unfold strContains
  apply containsSub_singleton_eq_false
  intro x hx
  by_cases hneg : n < 0
  · rw [show (pyStrInt n).data = '-' :: natDigits (n.natAbs + 1) n.natAbs from by
      unfold pyStrInt
      rw [if_pos hneg, String.data_append]
      rfl] at hx
    rcases List.mem_cons.mp hx with h | h
    · subst h
      decide
    · exact (digit_ne_chars x (natDigits_all_digit _ _ x h)).1
  · rw [show (pyStrInt n).data = natDigits (n.natAbs + 1) n.natAbs from by
      unfold pyStrInt
      rw [if_neg hneg]
      rfl] at hx
    exact (digit_ne_chars x (natDigits_all_digit _ _ x hx)).1

theorem decStr_has_dot (m : Int) (s : Nat) : strContains (decStr m s) "." = true := by
  unfold strContains
  apply containsSub_singleton_of_mem
  unfold decStr
  by_cases hs : s = 0
  · rw [if_pos hs]
    simp [String.data_append]
  · rw [if_neg hs]
    simp [String.data_append]

theorem fromNumStr_int (n : Int) : fromNumStr (pyStrInt n) = PV.int n := by
  unfold fromNumStr
  rw [pyStrInt_no_dot]
  simp [pyParseInt_pyStrInt]

theorem fromNumStr_float (m : Int) (s : Nat) (h : isNormDec m s = true) :
    fromNumStr (decStr m s) = PV.float m s := by
  unfold fromNumStr
  rw [decStr_has_dot]
  simp [pyParseFloat_decStr m s h]

theorem fromNumStrStrict_int (n : Int) : fromNumStrStrict (pyStrInt n) = some (PV.int n) := by
  unfold fromNumStrStrict
  rw [pyStrInt_no_dot]
  simp [pyParseInt_pyStrInt]

theorem fromNumStrStrict_float (m : Int) (s : Nat) (h : isNormDec m s = true) :
    fromNumStrStrict (decStr m s) = some (PV.float m s) := by
  unfold fromNumStrStrict
  rw [decStr_has_dot]
  simp [pyParseFloat_decStr m s h]

theorem strListPA_paStrings (l : PA) (h : paAllStr l = true) :
    strListPA (paStrings l) = l := by
  induction l using PA.ind with
  | hnil => rfl
  | hcons v tl ih =>
    simp only [paAllStr, paAll, Bool.and_eq_true] at h
    obtain ⟨hv, ht⟩ := h
    cases v <;> simp [isStrV] at hv
    simp [paStrings, strListPA, pyStrOf, ih ht]

theorem fromNumList_paNumStrings (l : PA) (h : paAll goodNum l = true) :
    fromNumList (paNumStrings l) = some l := by
  induction l using PA.ind with
  | hnil => rfl
  | hcons v tl ih =>
    simp only [paAllStr, paAll, Bool.and_eq_true] at h
    obtain ⟨hv, ht⟩ := h
    cases v <;> simp [goodNum] at hv
    · simp [paNumStrings, fromNumList, pyStrOf, pyRepr, fromNumStrStrict_int, ih ht]
    · rename_i m s
      simp [paNumStrings, fromNumList, pyStrOf, pyRepr, fromNumStrStrict_float m s hv, ih ht]

theorem paAllNum_of_goodNum (l : PA) (h : paAll goodNum l = true) : paAllNum l = true := by
  induction l using PA.ind with
  | hnil => rfl
  | hcons v tl ih =>
    simp only [paAllStr, paAll, Bool.and_eq_true] at h
    obtain ⟨hv, ht⟩ := h
    cases v <;> simp [goodNum] at hv <;> simp [paAllNum, isNumLike, ih ht]

theorem poAppend_nil_right (d : PO) : poAppend d PO.nil = d := by
  induction d using PO.ind with
  | hnil => rfl
  | hcons k v tl ih => simp [poAppend, ih]

theorem poAppend_assoc (a b c : PO) :
    poAppend (poAppend a b) c = poAppend a (poAppend b c) := by
  induction a using PO.ind with
  | hnil => rfl
  | hcons k v tl ih => simp [poAppend, ih]

theorem poSet_eq_append (d : PO) (k : String) (v : PV) (h : poMem d k = false) :
    poSet d k v = poAppend d (PO.cons k v PO.nil) := by
  induction d using PO.ind with
  | hnil => rfl
  | hcons k2 w tl ih =>
    by_cases hk : k2 = k
    · subst hk
      simp [poMem, poLookup] at h
    · simp only [poMem, poLookup, hk, if_false] at h
      simp [poSet, poAppend, hk, ih (by simpa [poMem] using h)]

theorem poMem_poAppend (a b : PO) (k : String) :
    poMem (poAppend a b) k = (poMem a k || poMem b k) := by
  induction a using PO.ind with
  | hnil => simp [poAppend, poMem, poLookup]
  | hcons k2 v tl ih =>
    by_cases hk : k2 = k <;> simp [poAppend, poMem, poLookup, hk] <;>
      simpa [poMem] using ih

theorem fromDynamoLoop_scalars (m : PO) :
    poNodup m = true → poAll (fun _ w => goodScalar w) m = true →
    ∀ acc, (∀ k2, poMem m k2 = true → poMem acc k2 = false) →
    fromDynamoLoop (toDynamo m) acc = some (poAppend acc m) := by
  induction m using PO.ind with
  | hnil =>
    intro _ _ acc _
    simp [toDynamo, fromDynamoLoop, poAppend_nil_right]
  | hcons k v tl ih =>
    intro hm hg acc hdisj
    simp only [poNodup, Bool.and_eq_true] at hm
    obtain ⟨hknotb, hnod⟩ := hm
    simp only [poAll, Bool.and_eq_true] at hg
    obtain ⟨hv, hgt⟩ := hg
    have hknot : poMem tl k = false := by
      rw [poMem_eq_contains]
      simpa using hknotb
    have hacck : poMem acc k = false := hdisj k (by simp [poMem, poLookup])
    have hdisj2 : ∀ (w : PV) (k2 : String), poMem tl k2 = true →
        poMem (poAppend acc (PO.cons k w PO.nil)) k2 = false := by
      intro w k2 hk2
      have hk2k : k2 ≠ k := by
        intro he
        rw [he, hknot] at hk2
        cases hk2
      rw [poMem_poAppend]
      have h1 : poMem acc k2 = false := by
        refine hdisj k2 ?_
        simp only [poMem, poLookup]
        rw [if_neg (fun he => hk2k he.symm)]
        exact hk2
      have h2 : poMem (PO.cons k w PO.nil) k2 = false := by
        simp only [poMem, poLookup]
        rw [if_neg (fun he => hk2k he.symm)]
        rfl
      rw [h1, h2]
      rfl
    have hstep : ∀ w : PV, fromDynamoLoop (toDynamo tl) (poSet acc k w) =
        some (poAppend acc (PO.cons k w tl)) := by
      intro w
      rw [poSet_eq_append acc k w hacck, ih hnod hgt _ (hdisj2 w), poAppend_assoc]
      rfl
    cases v with
    | str s => exact hstep (PV.str s)
    | bool b => exact hstep (PV.bool b)
    | int n =>
      have hd := fromNumStr_int n
      simp only [toDynamo, fromDynamoLoop, hd]
      exact hstep (PV.int n)
    | float m2 s2 =>
      have hnd : isNormDec m2 s2 = true := by simpa [goodScalar, goodNum] using hv
      have hd := fromNumStr_float m2 s2 hnd
      simp only [toDynamo, fromDynamoLoop, hd]
      exact hstep (PV.float m2 s2)
    | none => simp [goodScalar, goodNum] at hv
    | list l => simp [goodScalar, goodNum] at hv
    | dict m2 => simp [goodScalar, goodNum] at hv

theorem fromDynamoLoop_good (x : PO) :
    poNodup x = true → poAll (fun _ v => goodVal v) x = true →
    ∀ acc, (∀ k2, poMem x k2 = true → poMem acc k2 = false) →
    fromDynamoLoop (toDynamo x) acc = some (poAppend acc x) := by
  induction x using PO.ind with
  | hnil =>
    intro _ _ acc _
    simp [toDynamo, fromDynamoLoop, poAppend_nil_right]
  | hcons k v tl ih =>
    intro hm hg acc hdisj
    simp only [poNodup, Bool.and_eq_true] at hm
    obtain ⟨hknotb, hnod⟩ := hm
    simp only [poAll, Bool.and_eq_true] at hg
    obtain ⟨hv, hgt⟩ := hg
    have hknot : poMem tl k = false := by
      rw [poMem_eq_contains]
      simpa using hknotb
    have hacck : poMem acc k = false := hdisj k (by simp [poMem, poLookup])
    have hdisj2 : ∀ (w : PV) (k2 : String), poMem tl k2 = true →
        poMem (poAppend acc (PO.cons k w PO.nil)) k2 = false := by
      intro w k2 hk2
      have hk2k : k2 ≠ k := by
        intro he
        rw [he, hknot] at hk2
        cases hk2
      rw [poMem_poAppend]
      have h1 : poMem acc k2 = false := by
        refine hdisj k2 ?_
        simp only [poMem, poLookup]
        rw [if_neg (fun he => hk2k he.symm)]
        exact hk2
      have h2 : poMem (PO.cons k w PO.nil) k2 = false := by
        simp only [poMem, poLookup]
        rw [if_neg (fun he => hk2k he.symm)]
        rfl
      rw [h1, h2]
      rfl
    have hstep : ∀ w : PV, fromDynamoLoop (toDynamo tl) (poSet acc k w) =
        some (poAppend acc (PO.cons k w tl)) := by
      intro w
      rw [poSet_eq_append acc k w hacck, ih hnod hgt _ (hdisj2 w), poAppend_assoc]
      rfl
    cases v with
    | str s => exact hstep (PV.str s)
    | bool b => exact hstep (PV.bool b)
    | int n =>
      have hd := fromNumStr_int n
      simp only [toDynamo, fromDynamoLoop, hd]
      exact hstep (PV.int n)
    | float m2 s2 =>
      have hnd : isNormDec m2 s2 = true := by simpa [goodVal, goodScalar, goodNum] using hv
      have hd := fromNumStr_float m2 s2 hnd
      simp only [toDynamo, fromDynamoLoop, hd]
      exact hstep (PV.float m2 s2)
    | none => simp [goodVal, goodScalar, goodNum] at hv
    | dict m2 =>
      simp only [goodVal, Bool.and_eq_true] at hv
      obtain ⟨⟨hnodm2, hnoraw⟩, hscal⟩ := hv
      have hnoraw2 : poMem m2 "raw_data" = false := by simpa using hnoraw
      have hinner := fromDynamoLoop_scalars m2 hnodm2 hscal PO.nil (by intro k2 _; rfl)
      have hpost : postRawData m2 = some m2 := by
        unfold postRawData
        rw [if_neg (by simp [hnoraw2])]
      have hpn : poAppend PO.nil m2 = m2 := rfl
      simp only [toDynamo, fromDynamoLoop, hinner, hpn, hpost]
      exact hstep (PV.dict m2)
    | list l =>
      simp only [goodVal, Bool.or_eq_true] at hv
      rcases hv with hstr | hnum
      · have hd : dynListVal l = DVal.SS (paStrings l) := by
          unfold dynListVal
          rw [if_pos hstr]
        have hs := strListPA_paStrings l hstr
        simp only [toDynamo, fromDynamoLoop, hd, hs]
        exact hstep (PV.list l)
      · cases l with
        | nil =>
          have hd : dynListVal PA.nil = DVal.SS [] := rfl
          simp only [toDynamo, fromDynamoLoop, hd]
          exact hstep (PV.list PA.nil)
        | cons v2 tl2 =>
          have hv2 : goodNum v2 = true := by
            simp only [paAll, Bool.and_eq_true] at hnum
            exact hnum.1
          have hstrf : paAllStr (PA.cons v2 tl2) = false := by
            cases v2 <;> simp [goodNum] at hv2 <;> simp [paAllStr, isStrV]
          have hd : dynListVal (PA.cons v2 tl2) =
              DVal.NS (paNumStrings (PA.cons v2 tl2)) := by
            unfold dynListVal
            rw [if_neg (by simp [hstrf]), if_pos (paAllNum_of_goodNum _ hnum)]
          have hn := fromNumList_paNumStrings _ hnum
          simp only [toDynamo, fromDynamoLoop, hd, hn]
          exact hstep (PV.list (PA.cons v2 tl2))

theorem wireVal_good (v : PV) (h : goodVal v = true) : wireVal v = v := by
  cases v with
  | list l =>
    simp only [goodVal, Bool.or_eq_true] at h
    rcases h with hs | hn
    · simp [wireVal, hs]
    · simp [wireVal, paAllNum_of_goodNum _ hn]
  | none => rfl
  | bool b => rfl
  | int n => rfl
  | float m s => rfl
  | str s => rfl
  | dict m => rfl

theorem wireRecord_good (x : PO) (h : poAll (fun _ v => goodVal v) x = true) :
    wireRecord x = x := by
  induction x using PO.ind with
  | hnil => rfl
  | hcons k v tl ih =>
    simp only [poAll, Bool.and_eq_true] at h
    simp [wireRecord, wireVal_good v h.1, ih h.2]

theorem poMem_wireRecord (x : PO) (k : String) :
    poMem (wireRecord x) k = poMem x k := by
  induction x using PO.ind with
  | hnil => rfl
  | hcons k2 v tl ih =>
    by_cases h : k2 = k <;> simp [wireRecord, poMem, poLookup, h] <;>
      simpa [poMem] using ih

theorem fromDynamoLoop_ok (x : PO) :
    poNodup x = true → poAll (fun _ v => okVal v) x = true →
    ∀ acc, (∀ k2, poMem x k2 = true → poMem acc k2 = false) →
    fromDynamoLoop (toDynamo x) acc = some (poAppend acc (wireRecord x)) := by
  induction x using PO.ind with
  | hnil =>
    intro _ _ acc _
    simp [toDynamo, fromDynamoLoop, wireRecord, poAppend_nil_right]
  | hcons k v tl ih =>
    intro hm hg acc hdisj
    simp only [poNodup, Bool.and_eq_true] at hm
    obtain ⟨hknotb, hnod⟩ := hm
    simp only [poAll, Bool.and_eq_true] at hg
    obtain ⟨hv, hgt⟩ := hg
    have hknot : poMem tl k = false := by
      rw [poMem_eq_contains]
      simpa using hknotb
    have hacck : poMem acc k = false := hdisj k (by simp [poMem, poLookup])
    have hdisj2 : ∀ (w : PV) (k2 : String), poMem tl k2 = true →
        poMem (poAppend acc (PO.cons k w PO.nil)) k2 = false := by
      intro w k2 hk2
      have hk2k : k2 ≠ k := by
        intro he
        rw [he, hknot] at hk2
        cases hk2
      rw [poMem_poAppend]
      have h1 : poMem acc k2 = false := by
        refine hdisj k2 ?_
        simp only [poMem, poLookup]
        rw [if_neg (fun he => hk2k he.symm)]
        exact hk2
      have h2 : poMem (PO.cons k w PO.nil) k2 = false := by
        simp only [poMem, poLookup]
        rw [if_neg (fun he => hk2k he.symm)]
        rfl
      rw [h1, h2]
      rfl
    have hstep : ∀ w : PV, fromDynamoLoop (toDynamo tl) (poSet acc k w) =
        some (poAppend acc (PO.cons k w (wireRecord tl))) := by
      intro w
      rw [poSet_eq_append acc k w hacck, ih hnod hgt _ (hdisj2 w), poAppend_assoc]
      rfl
    cases v with
    | str s => exact hstep (PV.str s)
    | bool b => exact hstep (PV.bool b)
    | int n =>
      have hd := fromNumStr_int n
      simp only [toDynamo, fromDynamoLoop, hd]
      exact hstep (PV.int n)
    | float m2 s2 =>
      have hnd : isNormDec m2 s2 = true := by
        simpa [okVal, goodVal, goodScalar, goodNum, isHetList] using hv
      have hd := fromNumStr_float m2 s2 hnd
      simp only [toDynamo, fromDynamoLoop, hd]
      exact hstep (PV.float m2 s2)
    | none => simp [okVal, goodVal, goodScalar, goodNum, isHetList] at hv
    | dict m2 =>
      simp only [okVal, isHetList, Bool.or_false] at hv
      simp only [goodVal, Bool.and_eq_true] at hv
      obtain ⟨⟨hnodm2, hnoraw⟩, hscal⟩ := hv
      have hnoraw2 : poMem m2 "raw_data" = false := by simpa using hnoraw
      have hinner := fromDynamoLoop_scalars m2 hnodm2 hscal PO.nil (by intro k2 _; rfl)
      have hpost : postRawData m2 = some m2 := by
        unfold postRawData
        rw [if_neg (by simp [hnoraw2])]
      have hpn : poAppend PO.nil m2 = m2 := rfl
      simp only [toDynamo, fromDynamoLoop, hinner, hpn, hpost]
      exact hstep (PV.dict m2)
    | list l =>
      simp only [okVal, Bool.or_eq_true] at hv
      rcases hv with hgood | hhet
      · simp only [goodVal, Bool.or_eq_true] at hgood
        rcases hgood with hstr | hnum
        · have hd : dynListVal l = DVal.SS (paStrings l) := by
            unfold dynListVal
            rw [if_pos hstr]
          have hs := strListPA_paStrings l hstr
          have hw : wireVal (PV.list l) = PV.list l := by
            simp [wireVal, hstr]
          simp only [toDynamo, fromDynamoLoop, hd, hs, wireRecord, hw]
          exact hstep (PV.list l)
        · cases l with
          | nil =>
            have hd : dynListVal PA.nil = DVal.SS [] := rfl
            have hw : wireVal (PV.list PA.nil) = PV.list PA.nil := rfl
            simp only [toDynamo, fromDynamoLoop, hd, wireRecord, hw]
            exact hstep (PV.list PA.nil)
          | cons v2 tl2 =>
            have hv2 : goodNum v2 = true := by
              simp only [paAll, Bool.and_eq_true] at hnum
              exact hnum.1
            have hstrf : paAllStr (PA.cons v2 tl2) = false := by
              cases v2 <;> simp [goodNum] at hv2 <;> simp [paAllStr, isStrV]
            have hd : dynListVal (PA.cons v2 tl2) =
                DVal.NS (paNumStrings (PA.cons v2 tl2)) := by
              unfold dynListVal
              rw [if_neg (by simp [hstrf]), if_pos (paAllNum_of_goodNum _ hnum)]
            have hn := fromNumList_paNumStrings _ hnum
            have hw : wireVal (PV.list (PA.cons v2 tl2)) =
                PV.list (PA.cons v2 tl2) := by
              simp [wireVal, paAllNum_of_goodNum _ hnum]
            simp only [toDynamo, fromDynamoLoop, hd, hn, wireRecord, hw]
            exact hstep (PV.list (PA.cons v2 tl2))
      · simp only [isHetList, Bool.and_eq_true, Bool.not_eq_true'] at hhet
        obtain ⟨hs, hn⟩ := hhet
        have hd : dynListVal l = DVal.S (jsonDumps (PV.list l)) := by
          unfold dynListVal
          rw [if_neg (by simp [hs]), if_neg (by simp [hn])]
        have hw : wireVal (PV.list l) = PV.str (jsonDumps (PV.list l)) := by
          simp [wireVal, hs, hn]
        simp only [toDynamo, fromDynamoLoop, hd, wireRecord, hw]
        exact hstep (PV.str (jsonDumps (PV.list l)))

/-- C6 (corrected): the wire round trip maps every covered record to its
value-by-value wire image: scalar values (strings, booleans, and in the
decimal model ints and normalized floats), string-keyed nested scalar
mappings and homogeneous lists of strings or of numbers are reproduced
exactly (the wire image is the record itself when every value is such),
while heterogeneous or deeply nested lists come back as their JSON
serialization string rather than their original shape; throughout, no key
at any level may be the reserved raw data name, which the decoder
postprocesses. -/
theorem c6_roundtrip (x : PO) (h : okRecord x = true) :
    fromDynamo (toDynamo x) = some (wireRecord x) ∧
    (goodRecord x = true → wireRecord x = x) := by
  constructor
  · unfold okRecord at h
    rw [Bool.and_eq_true, Bool.and_eq_true] at h
    obtain ⟨⟨hnod, hnoraw⟩, hok⟩ := h
    have hnoraw2 : poMem x "raw_data" = false := by simpa using hnoraw
    have hloop := fromDynamoLoop_ok x hnod hok PO.nil (by intro k2 _; rfl)
    have hpn : poAppend PO.nil (wireRecord x) = wireRecord x := rfl
    have hpost : postRawData (wireRecord x) = some (wireRecord x) := by
      unfold postRawData
      rw [if_neg (by simp [poMem_wireRecord, hnoraw2])]
    simp only [fromDynamo, hloop, hpn, hpost]
  · intro hg
    unfold goodRecord at hg
    rw [Bool.and_eq_true, Bool.and_eq_true] at hg
    exact wireRecord_good x hg.2

/-- C6 witness: the spec record with a heterogeneous list field round-trips
to its wire image, whose list value is the serialized string; and the
one-string one-number one-boolean one-nested-mapping record of the spec is
reproduced exactly. -/
theorem c6_roundtrip_witness :
    (okRecord c6hetRec = true ∧
      fromDynamo (toDynamo c6hetRec) = some (wireRecord c6hetRec) ∧
      poLookup (wireRecord c6hetRec) "lignes" = some (PV.str "[1, \"a\"]")) ∧
    (okRecord c6rec = true ∧ goodRecord c6rec = true ∧
      fromDynamo (toDynamo c6rec) = some c6rec) :=
  ⟨⟨by decide, (c6_roundtrip c6hetRec (by decide)).1, by decide⟩,
   ⟨by decide, by decide, by
      have h := c6_roundtrip c6rec (by decide)
      rw [h.2 (by decide)] at h
      exact h.1⟩⟩

/-- C6 counterexample: a record holding a raw data string key (a scalar
record, covered by the stated claim) does not round-trip exactly: the
decoder adds a parsed data field. -/
theorem c6_counterexample :
    fromDynamo (toDynamo c6rawRec) =
      some (PO.cons "raw_data" (PV.str "x") (PO.cons "parsed_data" (PV.dict PO.nil) PO.nil)) ∧
    fromDynamo (toDynamo c6rawRec) ≠ some c6rawRec := by
  constructor
  · decide
  · decide
